import Mathlib

/-!
Android NDI player: pixel conversion and frame cache.

A shallow embedding of the native pixel converters
(`ndi_wrapper_optimized.cpp`, `pixel_converter.cpp`) and of the
`OptimizedFrameCache` of `ndi_wrapper_optimized.cpp`, with the properties
proved about them.

Conventions of the embedding.

* A byte (`uint8_t`, or a `jbyte` read through `(uint8_t)` / `& 0xFF`) is a
  `Fin 256`, its unsigned value.
* A `jint` word is represented by its 32-bit two's-complement pattern, a
  natural number below `2 ^ 32`.
* `int` loop counters and indices are natural numbers; C arithmetic on them is
  the arithmetic of `Nat` as long as the frame's byte size fits an `int`.
* A buffer is a list; every read and write is index-checked and the
  conversion yields `none` as soon as an access falls outside its buffer
  (undefined behaviour in the C++ source).
-/

namespace NDIPlayer

/-! ## Bytes, words and loops -/

/-- An unsigned byte. -/
abbrev Byte := Fin 256

/-- The expression `(a << 24) | (r << 16) | (g << 8) | b` stored into a
`jint`, as a 32-bit pattern. -/
def packARGB (a r g b : Nat) : Nat :=
  ((a <<< 24) ||| (r <<< 16) ||| (g <<< 8) ||| b) % 2 ^ 32

/-- The assignment `pixelData[i] = v`, index-checked. -/
def storeWord (out : List Nat) (i v : Nat) : Option (List Nat) :=
  if i < out.length then some (out.set i v) else none

/-- The loop `for (int i = 0; i < n; i++) body`, threading the state the body
updates; it stops at the first failing iteration. -/
def forRange {σ : Type} (n : Nat) (body : Nat → σ → Option σ) (init : σ) : Option σ :=
  (List.range n).foldlM (fun s i => body i s) init

/-! ## Frames -/

/-- The values of `NDIlib_FourCC_video_type_e` that the converters
distinguish. The enum is declared in the NDI SDK headers, which are not part
of the repository; `other` stands for every value that is none of the five
named tags of the `switch`. -/
inductive FourCC where
  | UYVY
  | BGRA
  | BGRX
  | RGBA
  | RGBX
  | other (code : Nat)
deriving DecidableEq, Repr

/-- The fields of `NDIlib_video_frame_v2_t` that `createBitmapFromVideoFrame`
reads; `p_data = none` is the null pointer. -/
structure NDIlib_video_frame_v2_t where
  xres : Nat
  yres : Nat
  FourCC : FourCC
  line_stride_in_bytes : Nat
  p_data : Option (List Byte)
deriving DecidableEq, Repr

/-- What `createBitmapFromVideoFrame` hands to `Bitmap.createBitmap`: the
pixel array, the width and the height (the configuration is always
`ARGB_8888`). -/
structure Bitmap where
  pixels : List Nat
  width : Nat
  height : Nat
deriving DecidableEq, Repr

/-- The JNI lookups and allocations that `createBitmapFromVideoFrame` checks
for null, each `true` when it succeeds. -/
structure JNIEnv where
  bitmapClass : Bool
  createBitmapMethod : Bool
  configClass : Bool
  argb8888Field : Bool
  config : Bool
  newIntArray : Bool
  intArrayElements : Bool
deriving DecidableEq, Repr

/-- A runtime on which every lookup and allocation succeeds. -/
def JNIEnv.android : JNIEnv :=
  ⟨true, true, true, true, true, true, true⟩

/-- The outcome of `createBitmapFromVideoFrame`. -/
inductive BitmapResult where
  | fault
  | null
  | bitmap (b : Bitmap)
deriving DecidableEq, Repr

/-! ## `createBitmapFromVideoFrame` (ndi_wrapper_optimized.cpp) -/

/-- Body of the inner loop of the BGRA/BGRX case: `hasAlpha` is the test
`frame->FourCC == NDIlib_FourCC_video_type_BGRA`. -/
def bgraBody (hasAlpha : Bool) (srcData : List Byte) (width stride y x : Nat)
    (pixelData : List Nat) : Option (List Nat) := do
  let b ← srcData[y * stride + (x * 4 + 0)]?
  let g ← srcData[y * stride + (x * 4 + 1)]?
  let r ← srcData[y * stride + (x * 4 + 2)]?
  let a ← if hasAlpha then srcData[y * stride + (x * 4 + 3)]? else some (255 : Byte)
  storeWord pixelData (y * width + x) (packARGB a.val r.val g.val b.val)

/-- Body of the inner loop of the RGBA/RGBX case: `hasAlpha` is the test
`frame->FourCC == NDIlib_FourCC_video_type_RGBA`. -/
def rgbaBody (hasAlpha : Bool) (srcData : List Byte) (width stride y x : Nat)
    (pixelData : List Nat) : Option (List Nat) := do
  let r ← srcData[y * stride + (x * 4 + 0)]?
  let g ← srcData[y * stride + (x * 4 + 1)]?
  let b ← srcData[y * stride + (x * 4 + 2)]?
  let a ← if hasAlpha then srcData[y * stride + (x * 4 + 3)]? else some (255 : Byte)
  storeWord pixelData (y * width + x) (packARGB a.val r.val g.val b.val)

/-- The clamp `v < 0 ? 0 : (v > 255 ? 255 : v)`. -/
def clamp255 (v : Int) : Int :=
  if v < 0 then 0 else if v > 255 then 255 else v

/-- Red channel of the UYVY case, from `c = y - 16` and `e = v - 128`. -/
def bitmapR (c e : Int) : Int := clamp255 ((298 * c + 409 * e + 128) >>> (8 : Nat))

/-- Green channel of the UYVY case. -/
def bitmapG (c d e : Int) : Int := clamp255 ((298 * c - 100 * d - 208 * e + 128) >>> (8 : Nat))

/-- Blue channel of the UYVY case, from `c = y - 16` and `d = u - 128`. -/
def bitmapB (c d : Int) : Int := clamp255 ((298 * c + 516 * d + 128) >>> (8 : Nat))

/-- The word `(255 << 24) | (r << 16) | (g << 8) | b` that the UYVY case
stores for a luma difference `c` and chroma differences `d`, `e`. -/
def uyvyWord (c d e : Int) : Nat :=
  packARGB 255 (bitmapR c e).toNat (bitmapG c d e).toNat (bitmapB c d).toNat

/-- Body of the inner loop of the UYVY case, for `x = 2 * k`. -/
def uyvyBody (srcData : List Byte) (width stride y x : Nat)
    (pixelData : List Nat) : Option (List Nat) := do
  let u ← srcData[y * stride + (x * 2 + 0)]?
  let y1 ← srcData[y * stride + (x * 2 + 1)]?
  let v ← srcData[y * stride + (x * 2 + 2)]?
  let y2 ← if x + 1 < width then srcData[y * stride + (x * 2 + 3)]? else some y1
  let c1 : Int := (y1.val : Int) - 16
  let c2 : Int := if x + 1 < width then (y2.val : Int) - 16 else c1
  let d : Int := (u.val : Int) - 128
  let e : Int := (v.val : Int) - 128
  let pixelData ← storeWord pixelData (y * width + x) (uyvyWord c1 d e)
  if x + 1 < width then
    storeWord pixelData (y * width + x + 1) (uyvyWord c2 d e)
  else
    some pixelData

/-- The `switch (frame->FourCC)` of `createBitmapFromVideoFrame`, filling
`pixelData`. The UYVY loop `for (x = 0; x < width; x += 2)` runs over
`x = 2 * k` for `k < ⌈width / 2⌉`. The `default` case converts as BGRA with
the alpha byte read from the source. -/
def convertFrame (fourCC : FourCC) (srcData : List Byte) (width height stride : Nat)
    (pixelData : List Nat) : Option (List Nat) :=
  match fourCC with
  | .BGRX | .BGRA =>
    forRange height (fun y => forRange width
      (fun x => bgraBody (decide (fourCC = .BGRA)) srcData width stride y x)) pixelData
  | .RGBA | .RGBX =>
    forRange height (fun y => forRange width
      (fun x => rgbaBody (decide (fourCC = .RGBA)) srcData width stride y x)) pixelData
  | .UYVY =>
    forRange height (fun y => forRange ((width + 1) / 2)
      (fun k => uyvyBody srcData width stride y (2 * k))) pixelData
  | .other _ =>
    forRange height (fun y => forRange width
      (fun x => bgraBody true srcData width stride y x)) pixelData

/-- The function `createBitmapFromVideoFrame`: `frame = none` is the null
frame pointer. `NewIntArray` returns a zero-filled array of
`width * height` words. -/
def createBitmapFromVideoFrame (env : JNIEnv) (frame : Option NDIlib_video_frame_v2_t) :
    BitmapResult :=
  match frame with
  | none => .null
  | some frame =>
    match frame.p_data with
    | none => .null
    | some srcData =>
      if !env.bitmapClass then .null
      else if !env.createBitmapMethod then .null
      else if !env.configClass then .null
      else if !env.argb8888Field then .null
      else if !env.config then .null
      else
        let width := frame.xres
        let height := frame.yres
        let stride := frame.line_stride_in_bytes
        if !env.newIntArray then .null
        else if !env.intArrayElements then .null
        else
          match convertFrame frame.FourCC srcData width height stride
              (List.replicate (width * height) 0) with
          | none => .fault
          | some pixels => .bitmap ⟨pixels, width, height⟩

/-! ## `pixel_converter.cpp` -/

namespace PixelConverter

/-- The constant `c1`, commented `1.402 * 1024`. -/
def c1 : Int := 1436

/-- The constant `c2`, commented `0.344 * 1024`. -/
def c2 : Int := 352

/-- The constant `c3`, commented `0.714 * 1024`. -/
def c3 : Int := 731

/-- The constant `c4`, commented `1.772 * 1024`. -/
def c4 : Int := 1815

/-- Red channel: `(y * 1024 + c1 * (v - 128)) >> 10`, clamped. -/
def convR (y v : Int) : Int := clamp255 ((y * 1024 + c1 * (v - 128)) >>> (10 : Nat))

/-- Green channel: `(y * 1024 - c2 * (u - 128) - c3 * (v - 128)) >> 10`,
clamped. -/
def convG (y u v : Int) : Int :=
  clamp255 ((y * 1024 - c2 * (u - 128) - c3 * (v - 128)) >>> (10 : Nat))

/-- Blue channel: `(y * 1024 + c4 * (u - 128)) >> 10`, clamped. -/
def convB (y u : Int) : Int := clamp255 ((y * 1024 + c4 * (u - 128)) >>> (10 : Nat))

/-- The word `(255 << 24) | (r << 16) | (g << 8) | b` stored for the sample
`(y, u, v)`. -/
def uyvyWord (y u v : Int) : Nat :=
  packARGB 255 (convR y v).toNat (convG y u v).toNat (convB y u).toNat

/-- Body of the inner loop of `nativeConvertUYVYToARGB`. The source buffer is
tightly packed and the second luma byte is read in every iteration. -/
def uyvyBody (uyvy : List Byte) (width y x : Nat) (argb : List Nat) :
    Option (List Nat) := do
  let uyvy_idx := y * width + x
  let u ← uyvy[uyvy_idx * 2]?
  let y1 ← uyvy[uyvy_idx * 2 + 1]?
  let v ← uyvy[uyvy_idx * 2 + 2]?
  let y2 ← uyvy[uyvy_idx * 2 + 3]?
  let argb ← storeWord argb (y * width + x) (uyvyWord y1.val u.val v.val)
  if x + 1 < width then
    storeWord argb (y * width + x + 1) (uyvyWord y2.val u.val v.val)
  else
    some argb

/-- The function `Java_ndiplayer_oto_MainActivity_nativeConvertUYVYToARGB` of
`pixel_converter.cpp`: the contents of `argb_pixels` after the call. The loop
`for (x = 0; x < width; x += 2)` runs over `x = 2 * k` for
`k < ⌈width / 2⌉`. -/
def nativeConvertUYVYToARGB (uyvy : List Byte) (argb : List Nat) (width height : Nat) :
    Option (List Nat) :=
  forRange height (fun y => forRange ((width + 1) / 2)
    (fun k => uyvyBody uyvy width y (2 * k))) argb

/-- Body of the scalar loops of `nativeConvertBGRAToARGB` (the loop of the
remaining pixels on aarch64 and the loop of the other architectures). -/
def scalarBody (bgra : List Byte) (i : Nat) (argb : List Nat) : Option (List Nat) := do
  let idx := i * 4
  let b ← bgra[idx]?
  let g ← bgra[idx + 1]?
  let r ← bgra[idx + 2]?
  let a ← bgra[idx + 3]?
  storeWord argb i (packARGB a.val r.val g.val b.val)

/-- The intrinsic `vld1q_u8`: the 16 bytes at `mem + off`, lane `j` being
byte `off + j`. -/
def vld1q_u8 (mem : List Byte) (off : Nat) : Option (List Byte) :=
  if off + 16 ≤ mem.length then some ((mem.drop off).take 16) else none

/-- The byte assignments `dst[0] = src[3]; dst[1] = src[2]; ...` of the vector
loop, for the four pixels of the vector. -/
def reorder (src : List Byte) : List Byte :=
  [src.getD 3 0, src.getD 2 0, src.getD 1 0, src.getD 0 0,
   src.getD 7 0, src.getD 6 0, src.getD 5 0, src.getD 4 0,
   src.getD 11 0, src.getD 10 0, src.getD 9 0, src.getD 8 0,
   src.getD 15 0, src.getD 14 0, src.getD 13 0, src.getD 12 0]

/-- Lane `k` of a 16-byte vector reinterpreted as `uint32x4_t`: on aarch64
(little-endian) byte `4 * k` is the least significant byte of the lane. -/
def lane32 (v : List Byte) (k : Nat) : Nat :=
  (v.getD (4 * k) 0).val ||| ((v.getD (4 * k + 1) 0).val <<< 8)
    ||| ((v.getD (4 * k + 2) 0).val <<< 16) ||| ((v.getD (4 * k + 3) 0).val <<< 24)

/-- The intrinsic `vst1q_u32`: stores the four lanes at `mem[i .. i + 3]`. -/
def vst1q_u32 (mem : List Nat) (i : Nat) (v : List Byte) : Option (List Nat) := do
  let mem ← storeWord mem i (lane32 v 0)
  let mem ← storeWord mem (i + 1) (lane32 v 1)
  let mem ← storeWord mem (i + 2) (lane32 v 2)
  storeWord mem (i + 3) (lane32 v 3)

/-- Body of the vector loop of `nativeConvertBGRAToARGB` on aarch64. -/
def neonBody (bgra : List Byte) (i : Nat) (argb : List Nat) : Option (List Nat) := do
  let bgra_vec ← vld1q_u8 bgra (i * 4)
  let reordered := reorder bgra_vec
  vst1q_u32 argb i reordered

/-- The function `Java_ndiplayer_oto_MainActivity_nativeConvertBGRAToARGB` of
`pixel_converter.cpp` as compiled for aarch64: the contents of `argb_pixels`
after the call. The vector loop `for (; i <= pixel_count - 4; i += 4)` runs
over `i = 4 * k` for `k < pixel_count / 4`; the scalar loop handles the
`pixel_count % 4` pixels that remain. -/
def nativeConvertBGRAToARGB_aarch64 (bgra : List Byte) (argb : List Nat)
    (width height : Nat) : Option (List Nat) := do
  let pixel_count := width * height
  let argb ← forRange (pixel_count / 4) (fun k => neonBody bgra (4 * k)) argb
  forRange (pixel_count % 4) (fun j => scalarBody bgra (4 * (pixel_count / 4) + j)) argb

/-- The same function as compiled for the other architectures. -/
def nativeConvertBGRAToARGB_fallback (bgra : List Byte) (argb : List Nat)
    (width height : Nat) : Option (List Nat) :=
  let pixel_count := width * height
  forRange pixel_count (scalarBody bgra) argb

end PixelConverter

/-! ## `OptimizedFrameCache` (ndi_wrapper_optimized.cpp) -/

/-- The constant `MAX_FRAME_CACHE`. -/
def MAX_FRAME_CACHE : Nat := 3

/-- The struct `FrameData`. `id` is the identity of the heap object that the
`unique_ptr` owns; `data = none` is the null buffer. The `timestamp` field,
written from the steady clock and never read, is left out. -/
structure FrameData where
  id : Nat
  data : Option (List Byte)
  size : Nat
  width : Nat
  height : Nat
  fourCC : FourCC
deriving DecidableEq, Repr

/-- The constructor `FrameData()`, for the object of identity `id`. -/
def FrameData.new (id : Nat) : FrameData :=
  ⟨id, none, 0, 0, 0, .UYVY⟩

/-- The method `FrameData::reset`. -/
def FrameData.reset (f : FrameData) : FrameData :=
  { f with data := none, size := 0, width := 0, height := 0 }

/-- The state of an `OptimizedFrameCache`: its two queues, front first.
`allocated` counts the `FrameData` objects that the cache has constructed, so
that `make_unique<FrameData>()` yields the object of identity `allocated`. The
mutexes and the condition variable have no state in a sequential run. -/
structure OptimizedFrameCache where
  available_frames : List FrameData
  ready_frames : List FrameData
  allocated : Nat
deriving DecidableEq, Repr

namespace OptimizedFrameCache

/-- The constructor: `MAX_FRAME_CACHE` frames are pre-allocated. -/
def new : OptimizedFrameCache :=
  ⟨(List.range MAX_FRAME_CACHE).map FrameData.new, [], MAX_FRAME_CACHE⟩

/-- The method `getAvailableFrame`. -/
def getAvailableFrame (c : OptimizedFrameCache) : FrameData × OptimizedFrameCache :=
  match c.available_frames with
  | frame :: rest => (frame, { c with available_frames := rest })
  | [] => (FrameData.new c.allocated, { c with allocated := c.allocated + 1 })

/-- The loop `while (ready_frames.size() >= MAX_FRAME_CACHE - 1)` of
`pushReadyFrame` on the pair of queues (ready, available): the front of the
ready queue is popped, reset and pushed on the available queue. On the empty
ready queue the test `0 >= 2` fails. -/
def evictLoop : List FrameData → List FrameData → List FrameData × List FrameData
  | [], available => ([], available)
  | old_frame :: rest, available =>
    if (old_frame :: rest).length ≥ MAX_FRAME_CACHE - 1 then
      evictLoop rest (available ++ [old_frame.reset])
    else
      (old_frame :: rest, available)

/-- The method `pushReadyFrame`. -/
def pushReadyFrame (c : OptimizedFrameCache) (frame : FrameData) : OptimizedFrameCache :=
  let (ready, available) := evictLoop c.ready_frames c.available_frames
  { c with available_frames := available, ready_frames := ready ++ [frame] }

/-- The call `frame_ready_cv.wait_for(lock, timeout, pred)` in a sequential
run: nothing is published during the wait, so it returns with the queues as
they were. -/
def waitReady (c : OptimizedFrameCache) : OptimizedFrameCache := c

/-- The method `popReadyFrame`; `none` is the null pointer. -/
def popReadyFrame (c : OptimizedFrameCache) (timeout_ms : Int) :
    Option FrameData × OptimizedFrameCache :=
  let c := if timeout_ms > 0 then c.waitReady else c
  match c.ready_frames with
  | frame :: rest => (some frame, { c with ready_frames := rest })
  | [] => (none, c)

/-- The method `recycleFrame`. -/
def recycleFrame (c : OptimizedFrameCache) (frame : FrameData) : OptimizedFrameCache :=
  { c with available_frames := c.available_frames ++ [frame.reset] }

/-- The method `clear`: every ready frame, front first, is reset and pushed on
the available queue. -/
def clear (c : OptimizedFrameCache) : OptimizedFrameCache :=
  { c with
    available_frames := c.available_frames ++ c.ready_frames.map FrameData.reset,
    ready_frames := [] }

end OptimizedFrameCache


/-! ## Runs of the cache -/

/-- A call of a public method of `OptimizedFrameCache`, with its argument. -/
inductive CacheOp where
  | getAvailableFrame
  | pushReadyFrame (frame : FrameData)
  | popReadyFrame (timeout_ms : Int)
  | recycleFrame (frame : FrameData)
  | clear
deriving DecidableEq, Repr

namespace OptimizedFrameCache

/-- The state of the cache after one call; the value a call returns is
dropped. -/
def apply (c : OptimizedFrameCache) : CacheOp → OptimizedFrameCache
  | .getAvailableFrame => c.getAvailableFrame.2
  | .pushReadyFrame frame => c.pushReadyFrame frame
  | .popReadyFrame timeout_ms => (c.popReadyFrame timeout_ms).2
  | .recycleFrame frame => c.recycleFrame frame
  | .clear => c.clear

/-- The state of the cache after a sequence of calls. -/
def run (c : OptimizedFrameCache) (ops : List CacheOp) : OptimizedFrameCache :=
  ops.foldl apply c

/-- The frames that the loop of `pushReadyFrame` pops off the ready queue, as
they were before `reset`, in the order of their eviction: the recursion is
that of `evictLoop`. -/
def evictedFrames : List FrameData → List FrameData
  | [] => []
  | old_frame :: rest =>
    if (old_frame :: rest).length ≥ MAX_FRAME_CACHE - 1 then
      old_frame :: evictedFrames rest
    else
      []

end OptimizedFrameCache

/-- A call of `pushReadyFrame` or of `popReadyFrame`. -/
inductive QueueOp where
  | push (frame : FrameData)
  | pop (timeout_ms : Int)
deriving DecidableEq, Repr

/-- The method call that a queue call stands for. -/
def QueueOp.toCacheOp : QueueOp → CacheOp
  | .push frame => .pushReadyFrame frame
  | .pop timeout_ms => .popReadyFrame timeout_ms

/-- A cache together with the record of a run of publish and pop calls: the
frames passed to `pushReadyFrame`, the frames `popReadyFrame` returned and the
frames `pushReadyFrame` evicted, each in the order of the events. -/
structure QueueTrace where
  cache : OptimizedFrameCache
  pushed : List FrameData
  popped : List FrameData
  evicted : List FrameData
deriving DecidableEq, Repr

namespace QueueTrace

/-- One call, recorded. -/
def step (t : QueueTrace) : QueueOp → QueueTrace
  | .push frame =>
    { cache := t.cache.pushReadyFrame frame,
      pushed := t.pushed ++ [frame],
      popped := t.popped,
      evicted := t.evicted ++ OptimizedFrameCache.evictedFrames t.cache.ready_frames }
  | .pop timeout_ms =>
    match t.cache.popReadyFrame timeout_ms with
    | (some frame, c) => { t with cache := c, popped := t.popped ++ [frame] }
    | (none, c) => { t with cache := c }

/-- The record of a sequence of calls on the cache `c`. -/
def run (c : OptimizedFrameCache) (ops : List QueueOp) : QueueTrace :=
  ops.foldl step ⟨c, [], [], []⟩

end QueueTrace

/-! ## Ownership of frames -/

/-- Whether a call is one of the pool, `getAvailableFrame` or
`recycleFrame`. -/
def CacheOp.isPool : CacheOp → Bool
  | .getAvailableFrame => true
  | .recycleFrame _ => true
  | _ => false

/-- A cache together with its callers. A `unique_ptr<FrameData>` that a method
returns is owned by the caller until the caller moves it into
`pushReadyFrame` or `recycleFrame`: `held` lists the identities of the frames
the callers own. The counters record the calls of `getAvailableFrame`, the
calls of `recycleFrame`, and the calls of `getAvailableFrame` that found the
available queue empty. -/
structure Session where
  cache : OptimizedFrameCache
  held : List Nat
  acquired : Nat
  recycled : Nat
  grown : Nat
deriving DecidableEq, Repr

namespace Session

/-- The constructed cache, no frame handed out. -/
def init : Session :=
  ⟨OptimizedFrameCache.new, [], 0, 0, 0⟩

/-- One call. A caller can move into `pushReadyFrame` or `recycleFrame` only a
frame that it owns, whatever it has written into it; `none` marks a call that
no caller can make. -/
def step (s : Session) : CacheOp → Option Session
  | .getAvailableFrame =>
    some { s with
      cache := s.cache.getAvailableFrame.2,
      held := s.cache.getAvailableFrame.1.id :: s.held,
      acquired := s.acquired + 1,
      grown := s.grown + (if s.cache.available_frames.isEmpty then 1 else 0) }
  | .pushReadyFrame frame =>
    if frame.id ∈ s.held then
      some { s with cache := s.cache.pushReadyFrame frame, held := s.held.erase frame.id }
    else none
  | .popReadyFrame timeout_ms =>
    match s.cache.popReadyFrame timeout_ms with
    | (some frame, c) => some { s with cache := c, held := frame.id :: s.held }
    | (none, c) => some { s with cache := c }
  | .recycleFrame frame =>
    if frame.id ∈ s.held then
      some { s with
        cache := s.cache.recycleFrame frame,
        held := s.held.erase frame.id,
        recycled := s.recycled + 1 }
    else none
  | .clear => some { s with cache := s.cache.clear }

/-- A sequence of calls. -/
def run (s : Session) (ops : List CacheOp) : Option Session :=
  ops.foldlM step s

/-- The identities of the frames in the available queue, in the ready queue
and with the callers. -/
def ids (s : Session) : List Nat :=
  s.cache.available_frames.map FrameData.id ++ s.cache.ready_frames.map FrameData.id
    ++ s.held

end Session

/-! ## `optimized_capture_loop` (ndi_wrapper_optimized.cpp) -/

/-- The values of `NDIlib_frame_type_e`, an enum of the NDI SDK headers, which
are not part of the repository. -/
inductive NDIlib_frame_type_e where
  | none
  | video
  | audio
  | metadata
  | error
  | status_change
deriving DecidableEq, Repr

/-- What an iteration of the capture loop does besides calling the cache, in
the order of the source: the bulk copy, the release of a buffer of the source
(`NDIlib_recv_free_video_v2`, `NDIlib_recv_free_audio_v2`) and the sleep. -/
inductive CaptureEvent where
  | memcpy (bytes : Nat)
  | free_video
  | free_audio
  | sleep (ms : Nat)
deriving DecidableEq, Repr

/-- The call `memcpy(dst, src, n)`, index-checked on both buffers: the
contents of `dst` after the call. -/
def memcpy (dst src : List Byte) (n : Nat) : Option (List Byte) :=
  if n ≤ dst.length ∧ n ≤ src.length then some (src.take n ++ dst.drop n) else none

/-- One iteration of the `while` loop of `optimized_capture_loop`, given what
`NDIlib_recv_capture_v2` returned: the frame type and the video frame
descriptor. The result is the cache after the iteration and the events of the
iteration, or `none` when the copy leaves a buffer. `make_unique<uint8_t[]>`
yields a zero-filled buffer of the requested size. The test
`frame_size > frame->size` is made after `frame->size = frame_size`. -/
def captureIteration (cache : OptimizedFrameCache) (frame_type : NDIlib_frame_type_e)
    (video_frame : NDIlib_video_frame_v2_t) :
    Option (OptimizedFrameCache × List CaptureEvent) :=
  let frame := cache.getAvailableFrame.1
  let cache := cache.getAvailableFrame.2
  match frame_type with
  | .video =>
    let frame_size := video_frame.yres * video_frame.line_stride_in_bytes
    match video_frame.p_data with
    | some p_data =>
      if frame_size > 0 then
        let frame := { frame with
          width := video_frame.xres, height := video_frame.yres,
          fourCC := video_frame.FourCC, size := frame_size }
        let buffer :=
          match frame.data with
          | none => List.replicate frame_size 0
          | some old => if frame_size > frame.size then List.replicate frame_size 0 else old
        match memcpy buffer p_data frame_size with
        | none => none
        | some data =>
          some (cache.pushReadyFrame { frame with data := some data },
            [.memcpy frame_size, .free_video])
      else
        some (cache.recycleFrame frame, [.free_video])
    | none => some (cache.recycleFrame frame, [.free_video])
  | .audio => some (cache.recycleFrame frame, [.free_audio])
  | .none => some (cache.recycleFrame frame, [.sleep 1])
  | _ => some (cache.recycleFrame frame, [.sleep 5])

/-- The iterations that the `while` loop of `optimized_capture_loop` makes
while `capture_running` is set, one for each result of the source: the cache
after the last of them and the events of all of them, in order. -/
def captureLoop (cache : OptimizedFrameCache) :
    List (NDIlib_frame_type_e × NDIlib_video_frame_v2_t) →
      Option (OptimizedFrameCache × List CaptureEvent)
  | [] => some (cache, [])
  | (frame_type, video_frame) :: rest =>
    match captureIteration cache frame_type video_frame with
    | none => none
    | some (cache, events) =>
      match captureLoop cache rest with
      | none => none
      | some (cache, later) => some (cache, events ++ later)

/-! ## The converters of `ndi_wrapper_optimized.cpp` -/

namespace Optimized

/-- The clamp `(x & 0xFFFFFF00) == 0 ? x : x < 0 ? 0 : 255` of
`nativeConvertUYVYToARGB` on an `int`. The literal `0xFFFFFF00` is an
`unsigned int`, so `x` is converted to its 32-bit pattern for the mask. -/
def maskClamp (x : Int) : Int :=
  if (x % 2 ^ 32).toNat &&& 0xFFFFFF00 = 0 then x else if x < 0 then 0 else 255

/-- Body of the inner loop of `nativeConvertBGRAToARGB`, for the pixel
`i + j`. -/
def bgraBody (bgra : List Byte) (p : Nat) (argb : List Nat) : Option (List Nat) := do
  let idx := p * 4
  let b ← bgra[idx]?
  let g ← bgra[idx + 1]?
  let r ← bgra[idx + 2]?
  let a ← bgra[idx + 3]?
  storeWord argb p (packARGB a.val r.val g.val b.val)

/-- The function `Java_ndiplayer_oto_MainActivity_nativeConvertBGRAToARGB` of
`ndi_wrapper_optimized.cpp`: the contents of `argbPixels` after the call. The
outer loop `for (i = 0; i < pixel_count; i += 4)` runs over `i = 4 * k` for
`k < ⌈pixel_count / 4⌉`; the inner loop
`for (j = 0; j < 4 && i + j < pixel_count; j++)` runs over
`j < min 4 (pixel_count - i)`. -/
def nativeConvertBGRAToARGB (bgra : List Byte) (argb : List Nat) (width height : Nat) :
    Option (List Nat) :=
  let pixel_count := width * height
  forRange ((pixel_count + 3) / 4) (fun k =>
    forRange (min 4 (pixel_count - 4 * k)) (fun j => bgraBody bgra (4 * k + j))) argb

end Optimized

/-! ## The frame getters of `NDIRenderService` -/

/-- The state that the frame functions of `NDIRenderService` use: whether the
receiver handle `ndi_recv` is set, the flag `capture_running`, the frame cache,
and the variables `static thread_local std::unique_ptr<FrameData>
current_frame`, of which each of the five functions declares its own, as seen
by one thread. -/
structure RenderState where
  ndi_recv : Bool
  capture_running : Bool
  frame_cache : OptimizedFrameCache
  captureFrame_current_frame : Option FrameData
  getFrameData_current_frame : Option FrameData
  getFrameFourCC_current_frame : Option FrameData
  getFrameWidth_current_frame : Option FrameData
  getFrameHeight_current_frame : Option FrameData
deriving DecidableEq, Repr

namespace RenderState

/-- The function `NDIRenderService.nativeCaptureFrame`: the value returned,
the two dimensions written to `widthHeight`, and the state. Starting the
capture thread sets `capture_running`; the iterations of the thread are not
part of the call. -/
def nativeCaptureFrame (s : RenderState) (timeoutMs : Int) :
    Int × Option (Nat × Nat) × RenderState :=
  if !s.ndi_recv then (-1, none, s)
  else
    let s := if !s.capture_running then { s with capture_running := true } else s
    match s.frame_cache.popReadyFrame timeoutMs with
    | (none, cache) => (0, none, { s with frame_cache := cache })
    | (some frame, cache) =>
      (1, some (frame.width, frame.height),
        { s with frame_cache := cache, captureFrame_current_frame := some frame })

/-- The function `NDIRenderService.nativeGetFrameData`: the byte array
returned (`none` is null) and the state; the outer `none` marks a copy of
`size` bytes out of a shorter buffer. -/
def nativeGetFrameData (s : RenderState) : Option (Option (List Byte) × RenderState) :=
  match s.getFrameData_current_frame with
  | none => some (none, s)
  | some current_frame =>
    match current_frame.data with
    | none => some (none, s)
    | some data =>
      if current_frame.size ≤ data.length then
        some (some (data.take current_frame.size),
          { s with
            frame_cache := s.frame_cache.recycleFrame current_frame,
            getFrameData_current_frame := none })
      else none

/-- The function `NDIRenderService.nativeGetFrameFourCC`; `none` is the
value 0 returned when there is no current frame. -/
def nativeGetFrameFourCC (s : RenderState) : Option FourCC :=
  match s.getFrameFourCC_current_frame with
  | none => none
  | some current_frame => some current_frame.fourCC

/-- The function `NDIRenderService.nativeGetFrameWidth`. -/
def nativeGetFrameWidth (s : RenderState) : Nat :=
  match s.getFrameWidth_current_frame with
  | none => 0
  | some current_frame => current_frame.width

/-- The function `NDIRenderService.nativeGetFrameHeight`. -/
def nativeGetFrameHeight (s : RenderState) : Nat :=
  match s.getFrameHeight_current_frame with
  | none => 0
  | some current_frame => current_frame.height

end RenderState

/-! ## The global frame state of `MainActivity` -/

/-- The globals `ndi_recv` (whether the handle is set), `has_video_frame` and
`current_video_frame`. -/
structure GlobalState where
  ndi_recv : Bool
  has_video_frame : Bool
  current_video_frame : NDIlib_video_frame_v2_t
deriving DecidableEq, Repr

/-- A call of a JNI entry point that writes one of these globals, with what
the NDI library answers during the call: whether the source index or name is
accepted, whether `NDIlib_recv_create_v3` returns a receiver, and what
`NDIlib_recv_capture_v2` returns. -/
inductive EntryPoint where
  | MainActivity_nativeConnectToSource (valid created : Bool)
  | MainActivity_nativeDisconnect
  | MainActivity_nativeGetFrame (frame_type : NDIlib_frame_type_e)
      (video_frame : NDIlib_video_frame_v2_t)
  | MainActivityOptimized_nativeShutdownNDI
  | NDIDiscoveryService_nativeDestroyNDI
  | NDIRenderService_nativeConnectToSource (found created : Bool)
  | NDIRenderService_nativeDisconnect
deriving DecidableEq, Repr

namespace GlobalState

/-- The state when the library is loaded: null receiver, flag false, frame
zero-initialised. -/
def init : GlobalState :=
  ⟨false, false, ⟨0, 0, .other 0, 0, none⟩⟩

/-- The effect of an entry point on the three globals. -/
def step (s : GlobalState) : EntryPoint → GlobalState
  | .MainActivity_nativeConnectToSource valid created =>
    if !valid then s
    else
      let s := if s.ndi_recv then { s with has_video_frame := false, ndi_recv := false } else s
      { s with ndi_recv := created }
  | .MainActivity_nativeDisconnect =>
    if s.ndi_recv then { s with has_video_frame := false, ndi_recv := false } else s
  | .MainActivity_nativeGetFrame frame_type video_frame =>
    if !s.ndi_recv then s
    else
      let s := if s.has_video_frame then { s with has_video_frame := false } else s
      match frame_type with
      | .video => { s with current_video_frame := video_frame, has_video_frame := true }
      | _ => s
  | .MainActivityOptimized_nativeShutdownNDI =>
    { s with ndi_recv := false, has_video_frame := false }
  | .NDIDiscoveryService_nativeDestroyNDI => { s with ndi_recv := false }
  | .NDIRenderService_nativeConnectToSource found created =>
    let s := { s with ndi_recv := false }
    if !found then s else if !created then s else { s with ndi_recv := true }
  | .NDIRenderService_nativeDisconnect => { s with ndi_recv := false }

/-- The state after a sequence of entry points. -/
def run (s : GlobalState) (calls : List EntryPoint) : GlobalState :=
  calls.foldl step s

/-- The function `MainActivity.nativeHasFrame`. -/
def nativeHasFrame (s : GlobalState) : Bool := s.has_video_frame

/-- The function `MainActivity.nativeGetFrameWidth`. -/
def nativeGetFrameWidth (s : GlobalState) : Nat :=
  if s.has_video_frame then s.current_video_frame.xres else 0

/-- The function `MainActivity.nativeGetFrameHeight`. -/
def nativeGetFrameHeight (s : GlobalState) : Nat :=
  if s.has_video_frame then s.current_video_frame.yres else 0

/-- The function `MainActivity.nativeGetFrameStride`. -/
def nativeGetFrameStride (s : GlobalState) : Nat :=
  if s.has_video_frame then s.current_video_frame.line_stride_in_bytes else 0

/-- The function `MainActivity.nativeGetFrameFourCC`; `none` is the value 0
returned without a frame. -/
def nativeGetFrameFourCC (s : GlobalState) : Option FourCC :=
  if s.has_video_frame then some s.current_video_frame.FourCC else none

end GlobalState

/-! ## Reference colour conversions -/

/-- The clamp of the specification, `max(0, min(255, x))`. -/
def clampRef (x : Int) : Int := max 0 (min 255 x)

/-- Red channel of the full-range BT.601 formula of the specification,
`clamp(round(Y + 1.402 (V - 128)))`, in exact rational arithmetic; `round`
rounds to the nearest integer, halves upwards. -/
def specR (Y V : Int) : Int :=
  clampRef (round ((Y : ℚ) + 1.402 * ((V : ℚ) - 128)))

/-- Green channel of the full-range formula,
`clamp(round(Y - 0.344 (U - 128) - 0.714 (V - 128)))`. -/
def specG (Y U V : Int) : Int :=
  clampRef (round ((Y : ℚ) - 0.344 * ((U : ℚ) - 128) - 0.714 * ((V : ℚ) - 128)))

/-- Blue channel of the full-range formula,
`clamp(round(Y + 1.772 (U - 128)))`. -/
def specB (Y U : Int) : Int :=
  clampRef (round ((Y : ℚ) + 1.772 * ((U : ℚ) - 128)))

/-- Red channel of the studio-range BT.601 formula,
`clamp(round(1.164 (Y - 16) + 1.596 (V - 128)))`. -/
def studioR (Y V : Int) : Int :=
  clampRef (round (1.164 * ((Y : ℚ) - 16) + 1.596 * ((V : ℚ) - 128)))

/-- Green channel of the studio-range formula,
`clamp(round(1.164 (Y - 16) - 0.392 (U - 128) - 0.813 (V - 128)))`. -/
def studioG (Y U V : Int) : Int :=
  clampRef (round (1.164 * ((Y : ℚ) - 16) - 0.392 * ((U : ℚ) - 128)
    - 0.813 * ((V : ℚ) - 128)))

/-- Blue channel of the studio-range formula,
`clamp(round(1.164 (Y - 16) + 2.017 (U - 128)))`. -/
def studioB (Y U : Int) : Int :=
  clampRef (round (1.164 * ((Y : ℚ) - 16) + 2.017 * ((U : ℚ) - 128)))

/-! ## Pointwise description of the conversion -/

/-- The word that the conversion of a row stores for pixel `x`, read off the
loop bodies of `createBitmapFromVideoFrame`; `row k` is byte `k` of the source
row. A UYVY pixel takes its luma from byte `2 * x + 1` and its chroma from
bytes `4 * (x / 2)` and `4 * (x / 2) + 2` of its pixel pair. -/
def pixelWord (fourCC : FourCC) (row : Nat → Byte) (x : Nat) : Nat :=
  match fourCC with
  | .BGRA | .other _ =>
    packARGB (row (x * 4 + 3)).val (row (x * 4 + 2)).val (row (x * 4 + 1)).val
      (row (x * 4 + 0)).val
  | .BGRX =>
    packARGB 255 (row (x * 4 + 2)).val (row (x * 4 + 1)).val (row (x * 4 + 0)).val
  | .RGBA =>
    packARGB (row (x * 4 + 3)).val (row (x * 4 + 0)).val (row (x * 4 + 1)).val
      (row (x * 4 + 2)).val
  | .RGBX =>
    packARGB 255 (row (x * 4 + 0)).val (row (x * 4 + 1)).val (row (x * 4 + 2)).val
  | .UYVY =>
    uyvyWord (((row (2 * x + 1)).val : Int) - 16) (((row (4 * (x / 2))).val : Int) - 128)
      (((row (4 * (x / 2) + 2)).val : Int) - 128)

/-- The number of leading bytes of a source row that the conversion of a row
of `width` pixels reads: four per pixel for the packed formats; for UYVY two
per pixel, and one more when the width is odd, where the read
`srcRow[x * 2 + 2]` of the last pixel is not guarded by `x + 1 < width` and
falls on the byte that follows the `2 * width` bytes of the row. -/
def rowBytes (fourCC : FourCC) (width : Nat) : Nat :=
  match fourCC with
  | .UYVY => 2 * width + width % 2
  | _ => 4 * width

/-- The bytes per pixel that the specification attributes to a format. -/
def bytesPerPixel (fourCC : FourCC) : Nat :=
  match fourCC with
  | .UYVY => 2
  | _ => 4

/-- Row `y` of a buffer with the given stride, as a function of the offset
in the row. -/
def rowOf (srcData : List Byte) (stride y : Nat) : Nat → Byte :=
  fun k => srcData.getD (y * stride + k) 0

/-- The colour `(R, G, B)` that the UYVY case of `createBitmapFromVideoFrame`
computes from a luma byte and the chroma bytes of its pixel pair. -/
def uyvyRGB (Y U V : Byte) : Nat × Nat × Nat :=
  ((bitmapR ((Y.val : Int) - 16) ((V.val : Int) - 128)).toNat,
   (bitmapG ((Y.val : Int) - 16) ((U.val : Int) - 128) ((V.val : Int) - 128)).toNat,
   (bitmapB ((Y.val : Int) - 16) ((U.val : Int) - 128)).toNat)

/-- The word `(A << 24) | (R << 16) | (G << 8) | B` of pixel `i` of a tightly
packed BGRA buffer, as a sum. -/
def packedWord (bgra : List Byte) (i : Nat) : Nat :=
  (bgra.getD (i * 4 + 3) 0).val * 2 ^ 24 + (bgra.getD (i * 4 + 2) 0).val * 2 ^ 16
    + (bgra.getD (i * 4 + 1) 0).val * 2 ^ 8 + (bgra.getD (i * 4) 0).val

/-! ## Sample inputs -/

/-- A tightly packed 2x2 BGRA frame whose four pixels are B=10, G=20, R=30,
A=255. -/
def sampleBGRA : NDIlib_video_frame_v2_t :=
  ⟨2, 2, .BGRA, 8,
    some [10, 20, 30, 255, 10, 20, 30, 255, 10, 20, 30, 255, 10, 20, 30, 255]⟩

/-- A 1x2 RGBX frame with a stride of 6 bytes: four payload bytes and two
padding bytes per row. -/
def sampleRGBX : NDIlib_video_frame_v2_t :=
  ⟨1, 2, .RGBX, 6, some [1, 2, 3, 4, 90, 91, 5, 6, 7, 8, 92, 93]⟩

/-- A 2x1 UYVY frame holding the samples Y=16 and Y=235 with neutral chroma
U=V=128. -/
def sampleUYVY : NDIlib_video_frame_v2_t :=
  ⟨2, 1, .UYVY, 4, some [128, 16, 128, 235]⟩

/-- A 1x1 frame whose FourCC is none of the five formats of the `switch`. -/
def sampleUnknown : NDIlib_video_frame_v2_t :=
  ⟨1, 1, .other 0, 4, some [10, 20, 30, 255]⟩

/-- A 1x1 UYVY frame with a stride of 4 bytes: two payload bytes and two
padding bytes, the first padding byte being 0. -/
def sampleOddUYVY : NDIlib_video_frame_v2_t :=
  ⟨1, 1, .UYVY, 4, some [128, 128, 0, 0]⟩

/-- The frame `sampleOddUYVY` with its first padding byte changed to 255. -/
def sampleOddUYVY2 : NDIlib_video_frame_v2_t :=
  ⟨1, 1, .UYVY, 4, some [128, 128, 255, 0]⟩

/-- The bytes of a tightly packed 2x2 BGRA image whose four pixels are B=10,
G=20, R=30, A=255. -/
def sampleBGRABytes : List Byte :=
  [10, 20, 30, 255, 10, 20, 30, 255, 10, 20, 30, 255, 10, 20, 30, 255]

/-- A filled frame of identity `id`, distinct from the pre-allocated ones. -/
def sampleFrame (id : Nat) : FrameData :=
  ⟨id, some [1, 2, 3, 4], 4, 1, 1, .BGRA⟩

/-- A fresh cache on which six frames of identities 11 to 16 have been
pushed, with no pop in between. -/
def sampleSixPushes : OptimizedFrameCache :=
  (((((OptimizedFrameCache.new.pushReadyFrame (sampleFrame 11)).pushReadyFrame
    (sampleFrame 12)).pushReadyFrame (sampleFrame 13)).pushReadyFrame
    (sampleFrame 14)).pushReadyFrame (sampleFrame 15)).pushReadyFrame (sampleFrame 16)

/-- Three publishes followed by two pops, the second with a timeout. -/
def sampleQueueOps : List QueueOp :=
  [.push (sampleFrame 11), .push (sampleFrame 12), .push (sampleFrame 13), .pop 0, .pop 5]

/-- Calls of both threads on one cache: three acquisitions, a fourth that
finds the available queue empty, two publishes, a pop, a recycle and a
clear. -/
def sampleSessionOps : List CacheOp :=
  [.getAvailableFrame, .getAvailableFrame, .getAvailableFrame, .getAvailableFrame,
   .pushReadyFrame ⟨0, some [1, 2], 2, 1, 1, .UYVY⟩,
   .pushReadyFrame ⟨1, some [3, 4], 2, 1, 1, .UYVY⟩,
   .popReadyFrame 33, .recycleFrame ⟨0, some [1, 2], 2, 1, 1, .UYVY⟩, .clear]

/-- Calls of the pool only: four acquisitions, the fourth on an empty
available queue, a recycle and a fifth acquisition. -/
def samplePoolOps : List CacheOp :=
  [.getAvailableFrame, .getAvailableFrame, .getAvailableFrame, .getAvailableFrame,
   .recycleFrame (FrameData.new 2), .getAvailableFrame]

/-- A 1x1 UYVY frame with the tight stride of 2 bytes and a buffer of exactly
`1 * 2` bytes. -/
def sampleTightOddUYVY : NDIlib_video_frame_v2_t :=
  ⟨1, 1, .UYVY, 2, some [128, 128]⟩

/-- A 3x2 UYVY frame with the tight stride of 6 bytes and a buffer of exactly
`2 * 6` bytes. -/
def sampleTightOddUYVY3 : NDIlib_video_frame_v2_t :=
  ⟨3, 2, .UYVY, 6, some [128, 16, 128, 235, 128, 16, 128, 16, 128, 235, 128, 16]⟩

/-- A render state with a connected receiver, a running capture thread, the
frame `sampleFrame 11` ready, and no current frame in any function. -/
def sampleRenderState : RenderState :=
  ⟨true, true, OptimizedFrameCache.new.pushReadyFrame (sampleFrame 11),
    none, none, none, none, none⟩

/-- `MainActivity` connects and receives a video frame, then
`NDIDiscoveryService.nativeDestroyNDI` is called. -/
def sampleCalls : List EntryPoint :=
  [.MainActivity_nativeConnectToSource true true,
   .MainActivity_nativeGetFrame .video sampleBGRA,
   .NDIDiscoveryService_nativeDestroyNDI]

/-! ## Properties -/

/-! ### Loops -/

theorem forRange_succ {σ : Type} (n : Nat) (body : Nat → σ → Option σ) (init : σ) :
    forRange (n + 1) body init = (forRange n body init).bind (body n) := by
  simp [forRange, List.range_succ, List.foldlM_append]

/-- Loop invariant rule: an invariant that holds initially and that every
successful iteration below the bound re-establishes holds at loop exit, and
the loop does not fail. -/
theorem forRange_inv {σ : Type} (P : Nat → σ → Prop) (n : Nat)
    (body : Nat → σ → Option σ) (init : σ) (h0 : P 0 init)
    (hstep : ∀ i s, i < n → P i s → ∃ s', body i s = some s' ∧ P (i + 1) s') :
    ∃ s, forRange n body init = some s ∧ P n s := by
  induction n with
  | zero => exact ⟨init, rfl, h0⟩
  | succ n ih =>
    obtain ⟨s, hs, hP⟩ := ih (fun i s hi => hstep i s (Nat.lt_succ_of_lt hi))
    obtain ⟨s', hs', hP'⟩ := hstep n s (Nat.lt_succ_self n) hP
    exact ⟨s', by rw [forRange_succ, hs]; exact hs', hP'⟩

theorem storeWord_eq {out : List Nat} {i : Nat} (v : Nat) (h : i < out.length) :
    storeWord out i v = some (out.set i v) := by
  simp [storeWord, h]

theorem getElem?_eq_getD {d : List Byte} {i : Nat} (h : i < d.length) :
    d[i]? = some (d.getD i 0) := by
  simp [List.getD, List.getElem?_eq_getElem h]

/-- An offset below the stride in a row below the height is inside a buffer of
`height * stride` bytes. -/
theorem row_offset_lt {h s len y k : Nat} (hy : y < h) (hk : k < s) (hlen : h * s ≤ len) :
    y * s + k < len := by
  have h1 : (y + 1) * s ≤ h * s := Nat.mul_le_mul_right s hy
  rw [Nat.succ_mul] at h1
  omega

theorem row_start_le {w y y' : Nat} (hy : y' < y) : y' * w + w ≤ y * w := by
  have h1 : (y' + 1) * w ≤ y * w := Nat.mul_le_mul_right w hy
  rw [Nat.succ_mul] at h1
  exact h1

/-- The outer loop over rows: if the row loop of every row `y` keeps the words
before the row and sets the words of the row to `val y`, the frame loop sets
every word `y * w + x` to `val y x`. -/
theorem rows_spec {w h : Nat} (rowLoop : Nat → List Nat → Option (List Nat))
    (val : Nat → Nat → Nat)
    (hrow : ∀ y out, y < h → out.length = w * h →
      ∃ out', rowLoop y out = some out' ∧ out'.length = w * h ∧
        (∀ i, i < y * w → out'[i]? = out[i]?) ∧
        ∀ x, x < w → out'[y * w + x]? = some (val y x))
    (out0 : List Nat) (hlen : out0.length = w * h) :
    ∃ out, forRange h rowLoop out0 = some out ∧ out.length = w * h ∧
      ∀ y x, y < h → x < w → out[y * w + x]? = some (val y x) := by
  have key := forRange_inv
    (fun y out => out.length = w * h ∧
      ∀ y' x, y' < y → x < w → out[y' * w + x]? = some (val y' x))
    h rowLoop out0 ⟨hlen, fun y' x hy' => absurd hy' (Nat.not_lt_zero _)⟩
    (by
      rintro y out hy ⟨hl, hprev⟩
      obtain ⟨out', h1, h2, h3, h4⟩ := hrow y out hy hl
      refine ⟨out', h1, h2, ?_⟩
      intro y' x hy' hx
      rcases Nat.lt_succ_iff_lt_or_eq.mp hy' with hlt | heq
      · have := row_start_le (w := w) hlt
        rw [h3 _ (by omega)]
        exact hprev y' x hlt hx
      · subst heq
        exact h4 x hx)
  obtain ⟨out, h1, h2, h3⟩ := key
  exact ⟨out, h1, h2, fun y x hy hx => h3 y x hy hx⟩

/-- The row loop of the four-byte formats: a body that stores `val y x` at
`y * w + x` fills row `y` and touches nothing before it. -/
theorem row4_spec {w h y : Nat} (body : Nat → List Nat → Option (List Nat))
    (val : Nat → Nat) (hy : y < h)
    (hbody : ∀ x out, x < w → body x out = storeWord out (y * w + x) (val x))
    (out : List Nat) (hlen : out.length = w * h) :
    ∃ out', forRange w body out = some out' ∧ out'.length = w * h ∧
      (∀ i, i < y * w → out'[i]? = out[i]?) ∧
      ∀ x, x < w → out'[y * w + x]? = some (val x) := by
  have hrow : y * w + w ≤ w * h := by
    have h1 : (y + 1) * w ≤ h * w := Nat.mul_le_mul_right w hy
    rw [Nat.succ_mul, Nat.mul_comm h w] at h1
    exact h1
  have key := forRange_inv
    (fun x o => o.length = w * h ∧ (∀ i, i < y * w → o[i]? = out[i]?) ∧
      ∀ x', x' < x → o[y * w + x']? = some (val x'))
    w body out ⟨hlen, fun i _ => rfl, fun x' hx' => absurd hx' (Nat.not_lt_zero _)⟩
    (by
      rintro x o hx ⟨hl, hpre, hdone⟩
      have hin : y * w + x < o.length := by omega
      refine ⟨o.set (y * w + x) (val x), by rw [hbody x o hx, storeWord_eq _ hin], ?_, ?_, ?_⟩
      · simp [hl]
      · intro i hi
        rw [List.getElem?_set_ne (by omega)]
        exact hpre i hi
      · intro x' hx'
        rcases Nat.lt_succ_iff_lt_or_eq.mp hx' with hlt | heq
        · rw [List.getElem?_set_ne (by omega)]
          exact hdone x' hlt
        · subst heq
          simp [hin])
  obtain ⟨out', h1, h2, h3, h4⟩ := key
  exact ⟨out', h1, h2, h3, h4⟩

/-! ### Packed words -/

theorem packARGB_eq {a r g b : Nat} (ha : a < 256) (hr : r < 256) (hg : g < 256)
    (hb : b < 256) : packARGB a r g b = a * 2 ^ 24 + r * 2 ^ 16 + g * 2 ^ 8 + b := by
  unfold packARGB
  rw [Nat.or_assoc, Nat.or_assoc, Nat.shiftLeft_eq, Nat.shiftLeft_eq, Nat.shiftLeft_eq,
    Nat.mul_comm a, Nat.mul_comm r, Nat.mul_comm g,
    ← Nat.mul_add_lt_is_or (by omega : b < 2 ^ 8) g,
    ← Nat.mul_add_lt_is_or (by omega : 2 ^ 8 * g + b < 2 ^ 16) r,
    ← Nat.mul_add_lt_is_or (by omega : 2 ^ 16 * r + (2 ^ 8 * g + b) < 2 ^ 24) a]
  omega

/-! ### The four-byte formats -/

/-- The nested loops of a four-byte format, started on the fresh pixel array. -/
theorem frame4_spec {w h : Nat} (body : Nat → Nat → List Nat → Option (List Nat))
    (val : Nat → Nat → Nat)
    (hbody : ∀ y x out, y < h → x < w → body y x out = storeWord out (y * w + x) (val y x)) :
    ∃ out, forRange h (fun y => forRange w (fun x => body y x)) (List.replicate (w * h) 0)
        = some out ∧ out.length = w * h ∧
      ∀ y x, y < h → x < w → out[y * w + x]? = some (val y x) :=
  rows_spec (fun y => forRange w (fun x => body y x)) val
    (fun y out hy hl => row4_spec (fun x => body y x) (val y) hy
      (fun x o hx => hbody y x o hy hx) out hl)
    _ (by simp)

theorem bgraBody_eq (hasAlpha : Bool) {d : List Byte} {w s y x : Nat} (out : List Nat)
    (hin : y * s + (x * 4 + 3) < d.length) :
    bgraBody hasAlpha d w s y x out = storeWord out (y * w + x)
      (packARGB (if hasAlpha then (d.getD (y * s + (x * 4 + 3)) 0).val else 255)
        (d.getD (y * s + (x * 4 + 2)) 0).val (d.getD (y * s + (x * 4 + 1)) 0).val
        (d.getD (y * s + (x * 4 + 0)) 0).val) := by
  unfold bgraBody
  rw [getElem?_eq_getD (by omega : y * s + (x * 4 + 0) < d.length),
    getElem?_eq_getD (by omega : y * s + (x * 4 + 1) < d.length),
    getElem?_eq_getD (by omega : y * s + (x * 4 + 2) < d.length),
    getElem?_eq_getD hin]
  cases hasAlpha <;> rfl

theorem rgbaBody_eq (hasAlpha : Bool) {d : List Byte} {w s y x : Nat} (out : List Nat)
    (hin : y * s + (x * 4 + 3) < d.length) :
    rgbaBody hasAlpha d w s y x out = storeWord out (y * w + x)
      (packARGB (if hasAlpha then (d.getD (y * s + (x * 4 + 3)) 0).val else 255)
        (d.getD (y * s + (x * 4 + 0)) 0).val (d.getD (y * s + (x * 4 + 1)) 0).val
        (d.getD (y * s + (x * 4 + 2)) 0).val) := by
  unfold rgbaBody
  rw [getElem?_eq_getD (by omega : y * s + (x * 4 + 0) < d.length),
    getElem?_eq_getD (by omega : y * s + (x * 4 + 1) < d.length),
    getElem?_eq_getD (by omega : y * s + (x * 4 + 2) < d.length),
    getElem?_eq_getD hin]
  cases hasAlpha <;> rfl

/-- The last byte of pixel `x` of row `y` lies inside the buffer. -/
theorem pixel4_in_bounds {w h s len y x : Nat} (hy : y < h) (hx : x < w) (hs : 4 * w ≤ s)
    (hlen : h * s ≤ len) : y * s + (x * 4 + 3) < len :=
  row_offset_lt hy (by omega) hlen

/-- The BGRA-ordered loops (cases BGRA, BGRX and `default`). -/
theorem bgraLoops_spec (hasAlpha : Bool) {d : List Byte} {w h s : Nat} (hs : 4 * w ≤ s)
    (hlen : h * s ≤ d.length) :
    ∃ out, forRange h (fun y => forRange w (fun x => bgraBody hasAlpha d w s y x))
        (List.replicate (w * h) 0) = some out ∧ out.length = w * h ∧
      ∀ y x, y < h → x < w → out[y * w + x]? = some
        (packARGB (if hasAlpha then (d.getD (y * s + (x * 4 + 3)) 0).val else 255)
          (d.getD (y * s + (x * 4 + 2)) 0).val (d.getD (y * s + (x * 4 + 1)) 0).val
          (d.getD (y * s + (x * 4 + 0)) 0).val) :=
  frame4_spec (fun y x => bgraBody hasAlpha d w s y x) _
    (fun _ _ out hy hx => bgraBody_eq hasAlpha out (pixel4_in_bounds hy hx hs hlen))

/-- The RGBA-ordered loops (cases RGBA, RGBX). -/
theorem rgbaLoops_spec (hasAlpha : Bool) {d : List Byte} {w h s : Nat} (hs : 4 * w ≤ s)
    (hlen : h * s ≤ d.length) :
    ∃ out, forRange h (fun y => forRange w (fun x => rgbaBody hasAlpha d w s y x))
        (List.replicate (w * h) 0) = some out ∧ out.length = w * h ∧
      ∀ y x, y < h → x < w → out[y * w + x]? = some
        (packARGB (if hasAlpha then (d.getD (y * s + (x * 4 + 3)) 0).val else 255)
          (d.getD (y * s + (x * 4 + 0)) 0).val (d.getD (y * s + (x * 4 + 1)) 0).val
          (d.getD (y * s + (x * 4 + 2)) 0).val) :=
  frame4_spec (fun y x => rgbaBody hasAlpha d w s y x) _
    (fun _ _ out hy hx => rgbaBody_eq hasAlpha out (pixel4_in_bounds hy hx hs hlen))

/-- On a working runtime and a frame with data, `createBitmapFromVideoFrame`
returns the bitmap of the words `convertFrame` produced. -/
theorem createBitmap_of_convert {f : NDIlib_video_frame_v2_t} {data : List Byte}
    {pixels : List Nat} (hdata : f.p_data = some data)
    (hconv : convertFrame f.FourCC data f.xres f.yres f.line_stride_in_bytes
      (List.replicate (f.xres * f.yres) 0) = some pixels) :
    createBitmapFromVideoFrame JNIEnv.android (some f) = .bitmap ⟨pixels, f.xres, f.yres⟩ := by
  simp [createBitmapFromVideoFrame, hdata, JNIEnv.android, hconv]

/-- C1. For a BGRA or BGRX frame of width `w`, height `h`, stride `s ≥ 4 * w`
and at least `h * s` bytes of data, `createBitmapFromVideoFrame` returns a
bitmap of exactly `w * h` words, and the word at `y * w + x` is
`(A << 24) | (R << 16) | (G << 8) | B` (a value below `2 ^ 32`), with `B`, `G`,
`R` the bytes at `y * s + 4 * x`, `+ 1`, `+ 2` and `A` the byte at `+ 3` for
BGRA and 255 for BGRX. The 2x2 BGRA frame of pixels B=10, G=20, R=30, A=255
yields four words `0xFF1E140A`. -/
theorem createBitmap_bgra_words (f : NDIlib_video_frame_v2_t) (data : List Byte)
    (hfmt : f.FourCC = .BGRA ∨ f.FourCC = .BGRX) (hdata : f.p_data = some data)
    (hstride : 4 * f.xres ≤ f.line_stride_in_bytes)
    (hlen : f.yres * f.line_stride_in_bytes ≤ data.length) :
    (∃ pixels, createBitmapFromVideoFrame JNIEnv.android (some f)
          = .bitmap ⟨pixels, f.xres, f.yres⟩ ∧
        pixels.length = f.xres * f.yres ∧
        ∀ x y, x < f.xres → y < f.yres →
          y * f.line_stride_in_bytes + 4 * x + 3 < data.length ∧
          pixels[y * f.xres + x]? = some
            ((if f.FourCC = .BGRA then
                (data.getD (y * f.line_stride_in_bytes + 4 * x + 3) 0).val else 255) * 2 ^ 24
              + (data.getD (y * f.line_stride_in_bytes + 4 * x + 2) 0).val * 2 ^ 16
              + (data.getD (y * f.line_stride_in_bytes + 4 * x + 1) 0).val * 2 ^ 8
              + (data.getD (y * f.line_stride_in_bytes + 4 * x) 0).val) ∧
          (if f.FourCC = .BGRA then
                (data.getD (y * f.line_stride_in_bytes + 4 * x + 3) 0).val else 255) * 2 ^ 24
              + (data.getD (y * f.line_stride_in_bytes + 4 * x + 2) 0).val * 2 ^ 16
              + (data.getD (y * f.line_stride_in_bytes + 4 * x + 1) 0).val * 2 ^ 8
              + (data.getD (y * f.line_stride_in_bytes + 4 * x) 0).val < 2 ^ 32) ∧
      createBitmapFromVideoFrame JNIEnv.android (some sampleBGRA)
        = .bitmap ⟨[0xFF1E140A, 0xFF1E140A, 0xFF1E140A, 0xFF1E140A], 2, 2⟩ := by
  refine ⟨?_, by decide⟩
  obtain ⟨out, hrun, hsize, hpix⟩ :=
    bgraLoops_spec (decide (f.FourCC = .BGRA)) hstride hlen
  have hconv : convertFrame f.FourCC data f.xres f.yres f.line_stride_in_bytes
      (List.replicate (f.xres * f.yres) 0) = some out := by
    rcases hfmt with h | h <;> rw [h] at hrun ⊢ <;> exact hrun
  refine ⟨out, createBitmap_of_convert hdata hconv, hsize, ?_⟩
  intro x y hx hy
  have hin := pixel4_in_bounds hy hx hstride hlen
  have e0 : y * f.line_stride_in_bytes + 4 * x = y * f.line_stride_in_bytes + (x * 4 + 0) := by
    omega
  have e1 : y * f.line_stride_in_bytes + 4 * x + 1
      = y * f.line_stride_in_bytes + (x * 4 + 1) := by omega
  have e2 : y * f.line_stride_in_bytes + 4 * x + 2
      = y * f.line_stride_in_bytes + (x * 4 + 2) := by omega
  have e3 : y * f.line_stride_in_bytes + 4 * x + 3
      = y * f.line_stride_in_bytes + (x * 4 + 3) := by omega
  have ha : (if f.FourCC = .BGRA then
      (data.getD (y * f.line_stride_in_bytes + (x * 4 + 3)) 0).val else 255) < 256 := by
    split
    · exact Fin.isLt _
    · omega
  have hr := (data.getD (y * f.line_stride_in_bytes + (x * 4 + 2)) 0).isLt
  have hg := (data.getD (y * f.line_stride_in_bytes + (x * 4 + 1)) 0).isLt
  have hb := (data.getD (y * f.line_stride_in_bytes + (x * 4 + 0)) 0).isLt
  rw [e3, e2, e1, e0]
  refine ⟨hin, ?_, by omega⟩
  rw [hpix y x hy hx, ← packARGB_eq ha hr hg hb]
  simp

theorem createBitmap_bgra_words_witness :
    (sampleBGRA.FourCC = .BGRA ∨ sampleBGRA.FourCC = .BGRX) ∧
      4 * sampleBGRA.xres ≤ sampleBGRA.line_stride_in_bytes ∧
      ∃ pixels, createBitmapFromVideoFrame JNIEnv.android (some sampleBGRA)
          = .bitmap ⟨pixels, 2, 2⟩ ∧ pixels.length = 2 * 2 :=
  ⟨Or.inl rfl, by decide,
    (createBitmap_bgra_words sampleBGRA
      [10, 20, 30, 255, 10, 20, 30, 255, 10, 20, 30, 255, 10, 20, 30, 255]
      (Or.inl rfl) rfl (by decide) (by decide)).1.imp (fun _ h => ⟨h.1, h.2.1⟩)⟩

/-- C2. For an RGBA or RGBX frame of width `w`, height `h`, stride `s ≥ 4 * w`
and at least `h * s` bytes of data, `createBitmapFromVideoFrame` returns a
bitmap of exactly `w * h` words, and the word at `y * w + x` is
`(A << 24) | (R << 16) | (G << 8) | B`, with `R`, `G`, `B` the bytes at
`y * s + 4 * x`, `+ 1`, `+ 2` and `A` the byte at `+ 3` for RGBA and 255 for
RGBX. -/
theorem createBitmap_rgba_words (f : NDIlib_video_frame_v2_t) (data : List Byte)
    (hfmt : f.FourCC = .RGBA ∨ f.FourCC = .RGBX) (hdata : f.p_data = some data)
    (hstride : 4 * f.xres ≤ f.line_stride_in_bytes)
    (hlen : f.yres * f.line_stride_in_bytes ≤ data.length) :
    ∃ pixels, createBitmapFromVideoFrame JNIEnv.android (some f)
          = .bitmap ⟨pixels, f.xres, f.yres⟩ ∧
        pixels.length = f.xres * f.yres ∧
        ∀ x y, x < f.xres → y < f.yres →
          y * f.line_stride_in_bytes + 4 * x + 3 < data.length ∧
          pixels[y * f.xres + x]? = some
            ((if f.FourCC = .RGBA then
                (data.getD (y * f.line_stride_in_bytes + 4 * x + 3) 0).val else 255) * 2 ^ 24
              + (data.getD (y * f.line_stride_in_bytes + 4 * x) 0).val * 2 ^ 16
              + (data.getD (y * f.line_stride_in_bytes + 4 * x + 1) 0).val * 2 ^ 8
              + (data.getD (y * f.line_stride_in_bytes + 4 * x + 2) 0).val) := by
  obtain ⟨out, hrun, hsize, hpix⟩ :=
    rgbaLoops_spec (decide (f.FourCC = .RGBA)) hstride hlen
  have hconv : convertFrame f.FourCC data f.xres f.yres f.line_stride_in_bytes
      (List.replicate (f.xres * f.yres) 0) = some out := by
    rcases hfmt with h | h <;> rw [h] at hrun ⊢ <;> exact hrun
  refine ⟨out, createBitmap_of_convert hdata hconv, hsize, ?_⟩
  intro x y hx hy
  have hin := pixel4_in_bounds hy hx hstride hlen
  have e0 : y * f.line_stride_in_bytes + 4 * x = y * f.line_stride_in_bytes + (x * 4 + 0) := by
    omega
  have e1 : y * f.line_stride_in_bytes + 4 * x + 1
      = y * f.line_stride_in_bytes + (x * 4 + 1) := by omega
  have e2 : y * f.line_stride_in_bytes + 4 * x + 2
      = y * f.line_stride_in_bytes + (x * 4 + 2) := by omega
  have e3 : y * f.line_stride_in_bytes + 4 * x + 3
      = y * f.line_stride_in_bytes + (x * 4 + 3) := by omega
  have ha : (if f.FourCC = .RGBA then
      (data.getD (y * f.line_stride_in_bytes + (x * 4 + 3)) 0).val else 255) < 256 := by
    split
    · exact Fin.isLt _
    · omega
  have hr := (data.getD (y * f.line_stride_in_bytes + (x * 4 + 0)) 0).isLt
  have hg := (data.getD (y * f.line_stride_in_bytes + (x * 4 + 1)) 0).isLt
  have hb := (data.getD (y * f.line_stride_in_bytes + (x * 4 + 2)) 0).isLt
  rw [e3, e2, e1, e0]
  refine ⟨hin, ?_⟩
  rw [hpix y x hy hx, ← packARGB_eq ha hr hg hb]
  simp

theorem createBitmap_rgba_words_witness :
    (sampleRGBX.FourCC = .RGBA ∨ sampleRGBX.FourCC = .RGBX) ∧
      4 * sampleRGBX.xres ≤ sampleRGBX.line_stride_in_bytes ∧
      ∃ pixels, createBitmapFromVideoFrame JNIEnv.android (some sampleRGBX)
          = .bitmap ⟨pixels, 1, 2⟩ ∧ pixels.length = 1 * 2 ∧
          pixels[1 * 1 + 0]? = some (255 * 2 ^ 24 + 5 * 2 ^ 16 + 6 * 2 ^ 8 + 7) :=
  ⟨Or.inr rfl, by decide,
    (createBitmap_rgba_words sampleRGBX [1, 2, 3, 4, 90, 91, 5, 6, 7, 8, 92, 93]
      (Or.inr rfl) rfl (by decide) (by decide)).imp
      (fun _ h => ⟨h.1, h.2.1, (h.2.2 0 1 (by decide) (by decide)).2⟩)⟩

/-! ### The UYVY format -/

theorem uyvyBody_eq {d : List Byte} {w s y x : Nat} (out : List Nat)
    (h2 : y * s + (x * 2 + 2) < d.length)
    (h3 : x + 1 < w → y * s + (x * 2 + 3) < d.length) :
    uyvyBody d w s y x out =
      (storeWord out (y * w + x)
        (uyvyWord (((d.getD (y * s + (x * 2 + 1)) 0).val : Int) - 16)
          (((d.getD (y * s + (x * 2 + 0)) 0).val : Int) - 128)
          (((d.getD (y * s + (x * 2 + 2)) 0).val : Int) - 128))).bind
        (fun o => if x + 1 < w then
          storeWord o (y * w + x + 1)
            (uyvyWord (((d.getD (y * s + (x * 2 + 3)) 0).val : Int) - 16)
              (((d.getD (y * s + (x * 2 + 0)) 0).val : Int) - 128)
              (((d.getD (y * s + (x * 2 + 2)) 0).val : Int) - 128))
          else some o) := by
  unfold uyvyBody
  rw [getElem?_eq_getD (by omega : y * s + (x * 2 + 0) < d.length),
    getElem?_eq_getD (by omega : y * s + (x * 2 + 1) < d.length),
    getElem?_eq_getD h2]
  by_cases hx : x + 1 < w
  · rw [getElem?_eq_getD (h3 hx)]
    simp [hx]
  · simp [hx]

theorem getD_index_congr (d : List Byte) {i j : Nat} (h : i = j) :
    d.getD i 0 = d.getD j 0 := by
  rw [h]

/-- The row loop of the UYVY case fills row `y` and touches nothing before
it. -/
theorem uyvyRow_spec {d : List Byte} {w h s y : Nat} (hy : y < h)
    (hs : 2 * w + w % 2 ≤ s) (hlen : h * s ≤ d.length)
    (out : List Nat) (hl : out.length = w * h) :
    ∃ out', forRange ((w + 1) / 2) (fun k => uyvyBody d w s y (2 * k)) out = some out' ∧
      out'.length = w * h ∧
      (∀ i, i < y * w → out'[i]? = out[i]?) ∧
      ∀ x, x < w → out'[y * w + x]? = some (pixelWord .UYVY (rowOf d s y) x) := by
  have hrow : y * w + w ≤ w * h := by
    have h1 : (y + 1) * w ≤ h * w := Nat.mul_le_mul_right w hy
    rw [Nat.succ_mul, Nat.mul_comm h w] at h1
    exact h1
  have key := forRange_inv
    (fun k o => o.length = w * h ∧ (∀ i, i < y * w → o[i]? = out[i]?) ∧
      ∀ x, x < 2 * k → x < w → o[y * w + x]? = some (pixelWord .UYVY (rowOf d s y) x))
    ((w + 1) / 2) (fun k => uyvyBody d w s y (2 * k)) out
    ⟨hl, fun i _ => rfl, fun x hx => absurd hx (Nat.not_lt_zero _)⟩
    (by
      rintro k o hk ⟨hol, hpre, hdone⟩
      have hkw : 2 * k < w := by omega
      have hin0 : y * w + 2 * k < o.length := by omega
      have hv1 : uyvyWord (((d.getD (y * s + (2 * k * 2 + 1)) 0).val : Int) - 16)
          (((d.getD (y * s + (2 * k * 2 + 0)) 0).val : Int) - 128)
          (((d.getD (y * s + (2 * k * 2 + 2)) 0).val : Int) - 128)
          = pixelWord .UYVY (rowOf d s y) (2 * k) := by
        simp only [pixelWord, rowOf]
        rw [getD_index_congr d (by omega : y * s + (2 * k * 2 + 1) = y * s + (2 * (2 * k) + 1)),
          getD_index_congr d (by omega : y * s + (2 * k * 2 + 0) = y * s + 4 * (2 * k / 2)),
          getD_index_congr d (by omega :
            y * s + (2 * k * 2 + 2) = y * s + (4 * (2 * k / 2) + 2))]
      have hv2 : uyvyWord (((d.getD (y * s + (2 * k * 2 + 3)) 0).val : Int) - 16)
          (((d.getD (y * s + (2 * k * 2 + 0)) 0).val : Int) - 128)
          (((d.getD (y * s + (2 * k * 2 + 2)) 0).val : Int) - 128)
          = pixelWord .UYVY (rowOf d s y) (2 * k + 1) := by
        simp only [pixelWord, rowOf]
        rw [getD_index_congr d (by omega :
            y * s + (2 * k * 2 + 3) = y * s + (2 * (2 * k + 1) + 1)),
          getD_index_congr d (by omega :
            y * s + (2 * k * 2 + 0) = y * s + 4 * ((2 * k + 1) / 2)),
          getD_index_congr d (by omega :
            y * s + (2 * k * 2 + 2) = y * s + (4 * ((2 * k + 1) / 2) + 2))]
      beta_reduce
      rw [uyvyBody_eq o (row_offset_lt hy (by omega) hlen)
        (fun hx => row_offset_lt hy (by omega) hlen), hv1, hv2, storeWord_eq _ hin0]
      by_cases hx1 : 2 * k + 1 < w
      · have hin1 : y * w + 2 * k + 1 < (o.set (y * w + 2 * k)
            (pixelWord .UYVY (rowOf d s y) (2 * k))).length := by
          rw [List.length_set]; omega
        refine ⟨_, by simp only [Option.bind, if_pos hx1]; exact storeWord_eq _ hin1, ?_, ?_, ?_⟩
        · simp [hol]
        · intro i hi
          rw [List.getElem?_set_ne (by omega), List.getElem?_set_ne (by omega)]
          exact hpre i hi
        · intro x hx hxw
          by_cases hxa : x = 2 * k + 1
          · subst hxa
            rw [show y * w + (2 * k + 1) = y * w + 2 * k + 1 by omega,
              List.getElem?_set_self hin1]
          · rw [List.getElem?_set_ne (by omega)]
            by_cases hxb : x = 2 * k
            · subst hxb
              rw [List.getElem?_set_self hin0]
            · rw [List.getElem?_set_ne (by omega)]
              exact hdone x (by omega) hxw
      · refine ⟨o.set (y * w + 2 * k) (pixelWord .UYVY (rowOf d s y) (2 * k)),
          by simp only [Option.bind, if_neg hx1], ?_, ?_, ?_⟩
        · simp [hol]
        · intro i hi
          rw [List.getElem?_set_ne (by omega)]
          exact hpre i hi
        · intro x hx hxw
          by_cases hxb : x = 2 * k
          · subst hxb
            rw [List.getElem?_set_self hin0]
          · rw [List.getElem?_set_ne (by omega)]
            exact hdone x (by omega) hxw)
  obtain ⟨out', h1, h2, h3, h4⟩ := key
  exact ⟨out', h1, h2, h3, fun x hx => h4 x (by omega) hx⟩

/-- Pointwise description of the conversion: on a buffer that holds `h` rows
of stride `s`, with the stride covering the bytes a row reads, the conversion
of every format (the `default` case included) succeeds with `w * h` words, and
the word at `y * w + x` is `pixelWord` of row `y`. -/
theorem convertFrame_spec (fourCC : FourCC) {d : List Byte} {w h s : Nat}
    (hs : rowBytes fourCC w ≤ s) (hlen : h * s ≤ d.length) :
    ∃ out, convertFrame fourCC d w h s (List.replicate (w * h) 0) = some out ∧
      out.length = w * h ∧
      ∀ y x, y < h → x < w → out[y * w + x]? = some (pixelWord fourCC (rowOf d s y) x) := by
  cases fourCC with
  | UYVY =>
    exact rows_spec (fun y => forRange ((w + 1) / 2) (fun k => uyvyBody d w s y (2 * k)))
      (fun y x => pixelWord .UYVY (rowOf d s y) x)
      (fun y out hy hl => uyvyRow_spec hy hs hlen out hl) _ (by simp)
  | BGRA => exact bgraLoops_spec true hs hlen
  | BGRX => exact bgraLoops_spec false hs hlen
  | RGBA => exact rgbaLoops_spec true hs hlen
  | RGBX => exact rgbaLoops_spec false hs hlen
  | other code => exact bgraLoops_spec true hs hlen

/-! ### Colour conversion -/

theorem shiftRight_eight (m : Int) : m >>> (8 : Nat) = m / 256 := by
  rw [Int.shiftRight_eq_div_pow]; rfl

theorem shiftRight_ten (m : Int) : m >>> (10 : Nat) = m / 1024 := by
  rw [Int.shiftRight_eq_div_pow]; rfl

/-- Rounding a rational with denominator 1000 is an integer division. -/
theorem round_div_thousand (n : Int) :
    round ((n : ℚ) / 1000) = (2 * n + 1000) / 2000 := by
  rw [round_eq]
  have h : (n : ℚ) / 1000 + 1 / 2 = ((2 * n + 1000 : ℤ) : ℚ) / ((2000 : ℕ) : ℚ) := by
    push_cast; ring
  rw [h, Rat.floor_intCast_div_natCast]
  rfl

theorem specR_eq (Y V : Int) :
    specR Y V = clampRef ((2 * (1000 * Y + 1402 * (V - 128)) + 1000) / 2000) := by
  unfold specR
  rw [← round_div_thousand]
  congr 2
  push_cast
  norm_num
  ring

theorem specG_eq (Y U V : Int) :
    specG Y U V
      = clampRef ((2 * (1000 * Y - 344 * (U - 128) - 714 * (V - 128)) + 1000) / 2000) := by
  unfold specG
  rw [← round_div_thousand]
  congr 2
  push_cast
  norm_num
  ring

theorem specB_eq (Y U : Int) :
    specB Y U = clampRef ((2 * (1000 * Y + 1772 * (U - 128)) + 1000) / 2000) := by
  unfold specB
  rw [← round_div_thousand]
  congr 2
  push_cast
  norm_num
  ring

theorem studioR_eq (Y V : Int) :
    studioR Y V = clampRef ((2 * (1164 * (Y - 16) + 1596 * (V - 128)) + 1000) / 2000) := by
  unfold studioR
  rw [← round_div_thousand]
  congr 2
  push_cast
  norm_num
  ring

theorem studioG_eq (Y U V : Int) :
    studioG Y U V = clampRef
      ((2 * (1164 * (Y - 16) - 392 * (U - 128) - 813 * (V - 128)) + 1000) / 2000) := by
  unfold studioG
  rw [← round_div_thousand]
  congr 2
  push_cast
  norm_num
  ring

theorem studioB_eq (Y U : Int) :
    studioB Y U = clampRef ((2 * (1164 * (Y - 16) + 2017 * (U - 128)) + 1000) / 2000) := by
  unfold studioB
  rw [← round_div_thousand]
  congr 2
  push_cast
  norm_num
  ring

/-- C3 fails as stated: at Y=16, U=V=128 the UYVY case of
`createBitmapFromVideoFrame` computes R=G=B=0 while the full-range formula
gives 16, so no channel is within 1 of it. -/
theorem bitmap_uyvy_full_range_counterexample :
    bitmapR (16 - 16) (128 - 128) = 0 ∧ specR 16 128 = 16 ∧
      ¬ (Int.natAbs (bitmapR (16 - 16) (128 - 128) - specR 16 128) ≤ 1) ∧
      ¬ (Int.natAbs (bitmapG (16 - 16) (128 - 128) (128 - 128) - specG 16 128 128) ≤ 1) ∧
      ¬ (Int.natAbs (bitmapB (16 - 16) (128 - 128) - specB 16 128) ≤ 1) := by
  rw [specR_eq, specG_eq, specB_eq]
  decide

/-- C3, amended. For all bytes Y, U, V, each channel the UYVY case of
`createBitmapFromVideoFrame` computes is within 1 of the studio-range BT.601
formula `clamp(round(1.164 (Y - 16) + 1.596 (V - 128)))`,
`clamp(round(1.164 (Y - 16) - 0.392 (U - 128) - 0.813 (V - 128)))`,
`clamp(round(1.164 (Y - 16) + 2.017 (U - 128)))`, evaluated in exact rational
arithmetic. -/
theorem bitmap_uyvy_studio_range (Y U V : Byte) :
    Int.natAbs (bitmapR ((Y.val : Int) - 16) ((V.val : Int) - 128) - studioR Y.val V.val) ≤ 1 ∧
      Int.natAbs (bitmapG ((Y.val : Int) - 16) ((U.val : Int) - 128) ((V.val : Int) - 128)
        - studioG Y.val U.val V.val) ≤ 1 ∧
      Int.natAbs (bitmapB ((Y.val : Int) - 16) ((U.val : Int) - 128) - studioB Y.val U.val) ≤ 1 := by
  rw [studioR_eq, studioG_eq, studioB_eq]
  have h1 := Y.isLt
  have h2 := U.isLt
  have h3 := V.isLt
  simp only [bitmapR, bitmapG, bitmapB, clamp255, clampRef, shiftRight_eight]
  refine ⟨?_, ?_, ?_⟩ <;> omega

/-- C4. For all bytes Y, U, V, each channel computed by `pixel_converter`'s
`nativeConvertUYVYToARGB` (constants 1436, 352, 731, 1815, shift by 10, clamp)
is within 1 of the full-range formula `clamp(round(Y + 1.402 (V - 128)))`,
`clamp(round(Y - 0.344 (U - 128) - 0.714 (V - 128)))`,
`clamp(round(Y + 1.772 (U - 128)))`, evaluated in exact rational arithmetic. -/
theorem pixelConverter_uyvy_full_range (Y U V : Byte) :
    Int.natAbs (PixelConverter.convR Y.val V.val - specR Y.val V.val) ≤ 1 ∧
      Int.natAbs (PixelConverter.convG Y.val U.val V.val - specG Y.val U.val V.val) ≤ 1 ∧
      Int.natAbs (PixelConverter.convB Y.val U.val - specB Y.val U.val) ≤ 1 := by
  rw [specR_eq, specG_eq, specB_eq]
  have h1 := Y.isLt
  have h2 := U.isLt
  have h3 := V.isLt
  simp only [PixelConverter.convR, PixelConverter.convG, PixelConverter.convB,
    PixelConverter.c1, PixelConverter.c2, PixelConverter.c3, PixelConverter.c4,
    clamp255, clampRef, shiftRight_ten]
  refine ⟨?_, ?_, ?_⟩ <;> omega

/-- C5. The UYVY case of `createBitmapFromVideoFrame` maps Y=16, U=V=128 to
R=G=B=0 and Y=235, U=V=128 to R=G=B=255, hence within 2 of black and of
white; the 2x1 frame of these two samples becomes the words `0xFF000000` and
`0xFFFFFFFF`. -/
theorem bitmap_uyvy_reference_values :
    Int.natAbs (bitmapR (16 - 16) (128 - 128) - 0) ≤ 2 ∧
      Int.natAbs (bitmapG (16 - 16) (128 - 128) (128 - 128) - 0) ≤ 2 ∧
      Int.natAbs (bitmapB (16 - 16) (128 - 128) - 0) ≤ 2 ∧
      Int.natAbs (bitmapR (235 - 16) (128 - 128) - 255) ≤ 2 ∧
      Int.natAbs (bitmapG (235 - 16) (128 - 128) (128 - 128) - 255) ≤ 2 ∧
      Int.natAbs (bitmapB (235 - 16) (128 - 128) - 255) ≤ 2 ∧
      createBitmapFromVideoFrame JNIEnv.android (some sampleUYVY)
        = .bitmap ⟨[0xFF000000, 0xFFFFFFFF], 2, 1⟩ := by
  decide

/-- C6 fails as stated: `pixel_converter`'s `nativeConvertUYVYToARGB` maps
Y=16, U=V=128 to channels that are not within 2 of 0, and Y=235, U=V=128 to
channels that are not within 2 of 255. -/
theorem pixelConverter_uyvy_reference_counterexample :
    ¬ (Int.natAbs (PixelConverter.convR 16 128 - 0) ≤ 2) ∧
      ¬ (Int.natAbs (PixelConverter.convG 16 128 128 - 0) ≤ 2) ∧
      ¬ (Int.natAbs (PixelConverter.convB 16 128 - 0) ≤ 2) ∧
      ¬ (Int.natAbs (PixelConverter.convR 235 128 - 255) ≤ 2) ∧
      ¬ (Int.natAbs (PixelConverter.convG 235 128 128 - 255) ≤ 2) ∧
      ¬ (Int.natAbs (PixelConverter.convB 235 128 - 255) ≤ 2) := by
  decide

/-- C6, amended. `pixel_converter`'s `nativeConvertUYVYToARGB` maps Y=16,
U=V=128 to R=G=B=16 and Y=235, U=V=128 to R=G=B=235; the tightly packed 2x1
buffer of these two samples becomes the words `0xFF101010` and
`0xFFEBEBEB`. -/
theorem pixelConverter_uyvy_reference_values :
    PixelConverter.convR 16 128 = 16 ∧ PixelConverter.convG 16 128 128 = 16 ∧
      PixelConverter.convB 16 128 = 16 ∧
      PixelConverter.convR 235 128 = 235 ∧ PixelConverter.convG 235 128 128 = 235 ∧
      PixelConverter.convB 235 128 = 235 ∧
      PixelConverter.nativeConvertUYVYToARGB [128, 16, 128, 235] [0, 0] 2 1
        = some [0xFF101010, 0xFFEBEBEB] := by
  decide

/-! ### Unknown formats and row padding -/

/-- C7 fails as stated: on a 1x1 frame with an unknown FourCC and the bytes
10, 20, 30, 255, `createBitmapFromVideoFrame` does not fail; it returns a
bitmap holding the BGRA reading `0xFF1E140A` of the data. -/
theorem createBitmap_unknown_format_counterexample :
    createBitmapFromVideoFrame JNIEnv.android (some sampleUnknown)
        = .bitmap ⟨[0xFF1E140A], 1, 1⟩ ∧
      createBitmapFromVideoFrame JNIEnv.android (some sampleUnknown) ≠ .null ∧
      createBitmapFromVideoFrame JNIEnv.android (some sampleUnknown) ≠ .fault := by
  decide

/-- C7, amended. For a frame whose FourCC is none of BGRA, BGRX, RGBA, RGBX,
UYVY, with stride `s ≥ 4 * w` and at least `h * s` bytes of data,
`createBitmapFromVideoFrame` takes the `default` case and converts the data as
BGRA: it returns the bitmap it returns for the same frame tagged BGRA, of
`w * h` words, the word at `y * w + x` being `(A << 24) | (R << 16) | (G << 8) | B`
of the bytes B, G, R, A at `y * s + 4 * x`, `+ 1`, `+ 2`, `+ 3`. The function is
given the runtime and the frame only: it reads and writes no frame cache. -/
theorem createBitmap_unknown_format (w h s code : Nat) (d : List Byte)
    (hs : 4 * w ≤ s) (hlen : h * s ≤ d.length) :
    ∃ pixels,
      createBitmapFromVideoFrame JNIEnv.android (some ⟨w, h, .other code, s, some d⟩)
        = .bitmap ⟨pixels, w, h⟩ ∧
      createBitmapFromVideoFrame JNIEnv.android (some ⟨w, h, .BGRA, s, some d⟩)
        = .bitmap ⟨pixels, w, h⟩ ∧
      pixels.length = w * h ∧
      ∀ x y, x < w → y < h →
        pixels[y * w + x]? = some
          ((d.getD (y * s + (x * 4 + 3)) 0).val * 2 ^ 24
            + (d.getD (y * s + (x * 4 + 2)) 0).val * 2 ^ 16
            + (d.getD (y * s + (x * 4 + 1)) 0).val * 2 ^ 8
            + (d.getD (y * s + (x * 4 + 0)) 0).val) := by
  obtain ⟨out, hrun, hsize, hpix⟩ := bgraLoops_spec true (d := d) hs hlen
  refine ⟨out, createBitmap_of_convert rfl hrun, createBitmap_of_convert rfl hrun, hsize, ?_⟩
  intro x y hx hy
  rw [hpix y x hy hx, ← packARGB_eq (Fin.isLt _) (Fin.isLt _) (Fin.isLt _) (Fin.isLt _)]
  simp

theorem createBitmap_unknown_format_witness :
    4 * 1 ≤ 4 ∧ 1 * 4 ≤ [(10 : Byte), 20, 30, 255].length ∧
      ∃ pixels,
        createBitmapFromVideoFrame JNIEnv.android
          (some ⟨1, 1, .other 7, 4, some [10, 20, 30, 255]⟩) = .bitmap ⟨pixels, 1, 1⟩ ∧
        pixels.length = 1 * 1 :=
  ⟨by decide, by decide,
    (createBitmap_unknown_format 1 1 4 7 [10, 20, 30, 255] (by decide) (by decide)).imp
      (fun _ h => ⟨h.1, h.2.2.1⟩)⟩

theorem getD_eq_of_getElem?_eq {d1 d2 : List Byte} {i : Nat} (h : d1[i]? = d2[i]?) :
    d1.getD i 0 = d2.getD i 0 := by
  simp [List.getD_eq_getElem?_getD, h]

/-- The word of pixel `x < w` depends on the first `rowBytes` bytes of its row
only. -/
theorem pixelWord_congr (fourCC : FourCC) {r1 r2 : Nat → Byte} {w x : Nat} (hx : x < w)
    (hrow : ∀ k, k < rowBytes fourCC w → r1 k = r2 k) :
    pixelWord fourCC r1 x = pixelWord fourCC r2 x := by
  cases fourCC <;> simp only [pixelWord, rowBytes] at hrow ⊢
  case UYVY =>
    rw [hrow (2 * x + 1) (by omega), hrow (4 * (x / 2)) (by omega),
      hrow (4 * (x / 2) + 2) (by omega)]
  all_goals
    rw [hrow (x * 4 + 0) (by omega), hrow (x * 4 + 1) (by omega),
      hrow (x * 4 + 2) (by omega)]
    try rw [hrow (x * 4 + 3) (by omega)]

/-- Two pixel arrays of `w * h` words that agree at every `y * w + x` are
equal. -/
theorem pixels_ext {w h : Nat} {p1 p2 : List Nat} (h1 : p1.length = w * h)
    (h2 : p2.length = w * h)
    (hpix : ∀ y x, y < h → x < w → p1[y * w + x]? = p2[y * w + x]?) : p1 = p2 := by
  apply List.ext_getElem?
  intro i
  by_cases hi : i < w * h
  · have hw : 0 < w := by
      rcases Nat.eq_zero_or_pos w with h0 | h0
      · subst h0; simp at hi
      · exact h0
    have hy : i / w < h := (Nat.div_lt_iff_lt_mul hw).mpr (by rw [Nat.mul_comm]; exact hi)
    have hx : i % w < w := Nat.mod_lt _ hw
    have := hpix (i / w) (i % w) hy hx
    rwa [Nat.div_add_mod'] at this
  · rw [List.getElem?_eq_none (by omega), List.getElem?_eq_none (by omega)]

/-- For BGRA, BGRX, RGBA, RGBX and for UYVY of even width the conversion reads
only the first `w * bytesPerPixel` bytes of each row: with a stride
`s ≥ w * bytesPerPixel`, two buffers of at least `h * s` bytes are both
converted to bitmaps of exactly `w * h` words; if they agree on the first
`w * bytesPerPixel` bytes of row `y`, the outputs agree on the indices
`y * w .. y * w + w - 1`; if they agree so on every row, the outputs are
identical. -/
theorem createBitmap_row_payload (fourCC : FourCC) (w h s : Nat) (d1 d2 : List Byte)
    (hf : fourCC ≠ .UYVY ∨ w % 2 = 0)
    (hs : w * bytesPerPixel fourCC ≤ s) (hlen1 : h * s ≤ d1.length)
    (hlen2 : h * s ≤ d2.length) :
    ∃ p1 p2,
      createBitmapFromVideoFrame JNIEnv.android (some ⟨w, h, fourCC, s, some d1⟩)
        = .bitmap ⟨p1, w, h⟩ ∧
      createBitmapFromVideoFrame JNIEnv.android (some ⟨w, h, fourCC, s, some d2⟩)
        = .bitmap ⟨p2, w, h⟩ ∧
      p1.length = w * h ∧ p2.length = w * h ∧
      (∀ y, y < h →
        (∀ k, k < w * bytesPerPixel fourCC → d1[y * s + k]? = d2[y * s + k]?) →
        ∀ x, x < w → p1[y * w + x]? = p2[y * w + x]?) ∧
      ((∀ y, y < h → ∀ k, k < w * bytesPerPixel fourCC →
          d1[y * s + k]? = d2[y * s + k]?) →
        p1 = p2) := by
  have hrb : rowBytes fourCC w = w * bytesPerPixel fourCC := by
    cases fourCC
    case UYVY =>
      simp at hf
      simp only [rowBytes, bytesPerPixel]
      omega
    all_goals
      simp only [rowBytes, bytesPerPixel]
      omega
  obtain ⟨p1, hrun1, hsize1, hpix1⟩ :=
    convertFrame_spec fourCC (d := d1) (by rw [hrb]; exact hs) hlen1
  obtain ⟨p2, hrun2, hsize2, hpix2⟩ :=
    convertFrame_spec fourCC (d := d2) (by rw [hrb]; exact hs) hlen2
  have hrowEq : ∀ y, y < h →
      (∀ k, k < w * bytesPerPixel fourCC → d1[y * s + k]? = d2[y * s + k]?) →
      ∀ x, x < w → p1[y * w + x]? = p2[y * w + x]? := by
    intro y hy hag x hx
    rw [hpix1 y x hy hx, hpix2 y x hy hx,
      @pixelWord_congr fourCC (rowOf d1 s y) (rowOf d2 s y) w x hx
        (fun k hk => getD_eq_of_getElem?_eq (hag k (by rw [← hrb]; exact hk)))]
  exact ⟨p1, p2, createBitmap_of_convert rfl hrun1, createBitmap_of_convert rfl hrun2,
    hsize1, hsize2, hrowEq,
    fun hall => pixels_ext hsize1 hsize2 (fun y x hy hx => hrowEq y hy (hall y hy) x hx)⟩

/-- C8 (defect in the code). Two 1x1 UYVY frames of stride 4 whose buffers
agree on the first `1 * 2` bytes of the row and differ only in a padding byte
are converted to the different words `0xFF00EA82` and `0xFFFF1B82`: for the
last pixel of an odd-width row the loop reads `v = srcRow[x * 2 + 2]` at row
offset `2 * w`, outside the `w * 2` bytes of the row, while it guards the Y2
read and the second pixel with `x + 1 < width`. With stride 3 and two rows the
padding byte of row 0 changes the word of row 0 and no other; with the tight
stride 2 the word of row 0 is computed from byte 2 of the buffer, which is the
U byte of row 1. An even-width UYVY row and a BGRA row with the same change of
a padding byte are converted to the same output. -/
theorem createBitmap_uyvy_odd_width_padding :
    sampleOddUYVY.xres * bytesPerPixel sampleOddUYVY.FourCC
        ≤ sampleOddUYVY.line_stride_in_bytes ∧
      sampleOddUYVY.p_data.map List.length
        = some (sampleOddUYVY.yres * sampleOddUYVY.line_stride_in_bytes) ∧
      sampleOddUYVY2.p_data.map List.length
        = some (sampleOddUYVY2.yres * sampleOddUYVY2.line_stride_in_bytes) ∧
      (∀ k, k < 1 * bytesPerPixel .UYVY →
        [(128 : Byte), 128, 0, 0][0 * 4 + k]? = [(128 : Byte), 128, 255, 0][0 * 4 + k]?) ∧
      createBitmapFromVideoFrame JNIEnv.android (some sampleOddUYVY)
        = .bitmap ⟨[0xFF00EA82], 1, 1⟩ ∧
      createBitmapFromVideoFrame JNIEnv.android (some sampleOddUYVY2)
        = .bitmap ⟨[0xFFFF1B82], 1, 1⟩ ∧
      createBitmapFromVideoFrame JNIEnv.android (some sampleOddUYVY)
        ≠ createBitmapFromVideoFrame JNIEnv.android (some sampleOddUYVY2) ∧
      createBitmapFromVideoFrame JNIEnv.android
          (some ⟨1, 2, .UYVY, 3, some [128, 128, 0, 128, 128, 0]⟩)
        = .bitmap ⟨[0xFF00EA82, 0xFF00EA82], 1, 2⟩ ∧
      createBitmapFromVideoFrame JNIEnv.android
          (some ⟨1, 2, .UYVY, 3, some [128, 128, 255, 128, 128, 0]⟩)
        = .bitmap ⟨[0xFFFF1B82, 0xFF00EA82], 1, 2⟩ ∧
      uyvyBody [128, 128, 0, 128] 1 2 0 0 [0, 0] = some [0xFF00EA82, 0] ∧
      uyvyBody [128, 128, 255, 128] 1 2 0 0 [0, 0] = some [0xFFFF1B82, 0] ∧
      createBitmapFromVideoFrame JNIEnv.android
          (some ⟨2, 1, .UYVY, 6, some [128, 128, 128, 128, 0, 0]⟩)
        = .bitmap ⟨[0xFF828282, 0xFF828282], 2, 1⟩ ∧
      createBitmapFromVideoFrame JNIEnv.android
          (some ⟨2, 1, .UYVY, 6, some [128, 128, 128, 128, 255, 0]⟩)
        = .bitmap ⟨[0xFF828282, 0xFF828282], 2, 1⟩ ∧
      createBitmapFromVideoFrame JNIEnv.android
          (some ⟨1, 1, .BGRA, 6, some [10, 20, 30, 255, 0, 0]⟩)
        = .bitmap ⟨[0xFF1E140A], 1, 1⟩ ∧
      createBitmapFromVideoFrame JNIEnv.android
          (some ⟨1, 1, .BGRA, 6, some [10, 20, 30, 255, 255, 0]⟩)
        = .bitmap ⟨[0xFF1E140A], 1, 1⟩ := by
  decide

/-! ### `nativeConvertBGRAToARGB` of `pixel_converter.cpp` -/

/-- C9 (defect in the code). On the 2x2 BGRA image of pixels B=10, G=20,
R=30, A=255 the aarch64 build writes four words `0x0A141EFF`, while the
fallback loop writes the words `0xFF1E140A` that the claim states. For every
four-pixel image the vector loop stores the bytes A, R, G, B of a pixel in
memory order, which a little-endian word reads as
`A | (R << 8) | (G << 16) | (B << 24)`, where the fallback loop stores
`(A << 24) | (R << 16) | (G << 8) | B`. -/
theorem nativeConvertBGRAToARGB_aarch64_sample :
    PixelConverter.nativeConvertBGRAToARGB_aarch64 sampleBGRABytes [0, 0, 0, 0] 2 2
        = some [0x0A141EFF, 0x0A141EFF, 0x0A141EFF, 0x0A141EFF] ∧
      PixelConverter.nativeConvertBGRAToARGB_fallback sampleBGRABytes [0, 0, 0, 0] 2 2
        = some [0xFF1E140A, 0xFF1E140A, 0xFF1E140A, 0xFF1E140A] ∧
      ∀ b0 g0 r0 a0 b1 g1 r1 a1 b2 g2 r2 a2 b3 g3 r3 a3 : Byte,
        PixelConverter.nativeConvertBGRAToARGB_aarch64
            [b0, g0, r0, a0, b1, g1, r1, a1, b2, g2, r2, a2, b3, g3, r3, a3] [0, 0, 0, 0] 2 2
          = some [a0.val ||| (r0.val <<< 8) ||| (g0.val <<< 16) ||| (b0.val <<< 24),
              a1.val ||| (r1.val <<< 8) ||| (g1.val <<< 16) ||| (b1.val <<< 24),
              a2.val ||| (r2.val <<< 8) ||| (g2.val <<< 16) ||| (b2.val <<< 24),
              a3.val ||| (r3.val <<< 8) ||| (g3.val <<< 16) ||| (b3.val <<< 24)] ∧
        PixelConverter.nativeConvertBGRAToARGB_fallback
            [b0, g0, r0, a0, b1, g1, r1, a1, b2, g2, r2, a2, b3, g3, r3, a3] [0, 0, 0, 0] 2 2
          = some [packARGB a0.val r0.val g0.val b0.val, packARGB a1.val r1.val g1.val b1.val,
              packARGB a2.val r2.val g2.val b2.val, packARGB a3.val r3.val g3.val b3.val] := by
  refine ⟨by decide, by decide, ?_⟩
  intros
  exact ⟨rfl, rfl⟩

/-! ### The frame cache -/

/-- C10 fails as stated: after six frames are pushed on a fresh cache, the
first `popReadyFrame(0)` returns the fifth frame, not the fourth, and the third
returns null: two frames are retrievable, not three. -/
theorem cache_depth_counterexample :
    (sampleSixPushes.popReadyFrame 0).1 = some (sampleFrame 15) ∧
      (sampleSixPushes.popReadyFrame 0).1 ≠ some (sampleFrame 14) ∧
      ((sampleSixPushes.popReadyFrame 0).2.popReadyFrame 0).1 = some (sampleFrame 16) ∧
      (((sampleSixPushes.popReadyFrame 0).2.popReadyFrame 0).2.popReadyFrame 0).1 = none := by
  decide

/-- C10, amended. The ready queue holds `K = MAX_FRAME_CACHE - 1 = 2`
frames. After `pushReadyFrame` of the `K + 3` frames `f1 .. f5` on a fresh
cache with no pops in between, repeated `popReadyFrame(0)` returns exactly `K`
frames, `f4` then `f5`, and then null; the three oldest were evicted, reset
and appended to the available queue in that order. After a sixth push of `f6`
the pops return `f5` then `f6` and then null, `f4` having been evicted too. -/
theorem cache_depth (f1 f2 f3 f4 f5 f6 : FrameData) :
    let c5 := ((((OptimizedFrameCache.new.pushReadyFrame f1).pushReadyFrame
      f2).pushReadyFrame f3).pushReadyFrame f4).pushReadyFrame f5
    let c6 := c5.pushReadyFrame f6
    MAX_FRAME_CACHE - 1 = 2 ∧
      c5.ready_frames = [f4, f5] ∧
      (c5.popReadyFrame 0).1 = some f4 ∧
      ((c5.popReadyFrame 0).2.popReadyFrame 0).1 = some f5 ∧
      (((c5.popReadyFrame 0).2.popReadyFrame 0).2.popReadyFrame 0).1 = none ∧
      c5.available_frames = OptimizedFrameCache.new.available_frames
        ++ [f1.reset, f2.reset, f3.reset] ∧
      c6.ready_frames = [f5, f6] ∧
      (c6.popReadyFrame 0).1 = some f5 ∧
      ((c6.popReadyFrame 0).2.popReadyFrame 0).1 = some f6 ∧
      (((c6.popReadyFrame 0).2.popReadyFrame 0).2.popReadyFrame 0).1 = none ∧
      c6.available_frames = OptimizedFrameCache.new.available_frames
        ++ [f1.reset, f2.reset, f3.reset, f4.reset] := by
  refine ⟨rfl, rfl, rfl, rfl, rfl, rfl, rfl, rfl, rfl, rfl, rfl⟩

/-! ### Eviction -/

theorem evictedFrames_length (r : List FrameData) :
    (OptimizedFrameCache.evictedFrames r).length = r.length - 1 := by
  induction r with
  | nil => rfl
  | cons x rest ih =>
    unfold OptimizedFrameCache.evictedFrames
    split
    · rename_i h
      simp only [List.length_cons, MAX_FRAME_CACHE] at h ⊢
      rw [ih]
      omega
    · rename_i h
      simp only [List.length_cons, MAX_FRAME_CACHE] at h ⊢
      simp
      omega

/-- The evicted frames are a front segment of the ready queue. -/
theorem evictedFrames_eq_take (r : List FrameData) :
    OptimizedFrameCache.evictedFrames r
      = r.take (OptimizedFrameCache.evictedFrames r).length := by
  induction r with
  | nil => rfl
  | cons x rest ih =>
    unfold OptimizedFrameCache.evictedFrames
    split
    · simp only [List.length_cons, List.take_succ_cons]
      rw [← ih]
    · rfl

/-- The eviction loop drops the evicted front segment of the ready queue and
appends it, reset, to the available queue. -/
theorem evictLoop_eq (r a : List FrameData) :
    OptimizedFrameCache.evictLoop r a
      = (r.drop (OptimizedFrameCache.evictedFrames r).length,
          a ++ (OptimizedFrameCache.evictedFrames r).map FrameData.reset) := by
  induction r generalizing a with
  | nil => simp [OptimizedFrameCache.evictLoop, OptimizedFrameCache.evictedFrames]
  | cons x rest ih =>
    unfold OptimizedFrameCache.evictLoop OptimizedFrameCache.evictedFrames
    split
    · rw [ih]
      simp
    · simp

theorem pushReadyFrame_eq (c : OptimizedFrameCache) (f : FrameData) :
    c.pushReadyFrame f =
      { c with
        available_frames := c.available_frames
          ++ (OptimizedFrameCache.evictedFrames c.ready_frames).map FrameData.reset,
        ready_frames := c.ready_frames.drop
          (OptimizedFrameCache.evictedFrames c.ready_frames).length ++ [f] } := by
  simp [OptimizedFrameCache.pushReadyFrame, evictLoop_eq]

theorem popReadyFrame_nil (a : List FrameData) (n : Nat) (t : Int) :
    OptimizedFrameCache.popReadyFrame ⟨a, [], n⟩ t = (none, ⟨a, [], n⟩) := by
  unfold OptimizedFrameCache.popReadyFrame OptimizedFrameCache.waitReady
  split <;> rfl

theorem popReadyFrame_cons (a : List FrameData) (f : FrameData) (rest : List FrameData)
    (n : Nat) (t : Int) :
    OptimizedFrameCache.popReadyFrame ⟨a, f :: rest, n⟩ t = (some f, ⟨a, rest, n⟩) := by
  unfold OptimizedFrameCache.popReadyFrame OptimizedFrameCache.waitReady
  split <;> rfl

/-- Invariant rule for runs of the cache. -/
theorem cache_run_inv (P : OptimizedFrameCache → Prop)
    (hstep : ∀ c op, P c → P (c.apply op)) (ops : List CacheOp) :
    ∀ c, P c → P (c.run ops) := by
  induction ops with
  | nil => exact fun c h => h
  | cons op ops ih => exact fun c h => ih (c.apply op) (hstep c op h)

theorem ready_length_apply (c : OptimizedFrameCache) (op : CacheOp)
    (h : c.ready_frames.length ≤ MAX_FRAME_CACHE - 1) :
    (c.apply op).ready_frames.length ≤ MAX_FRAME_CACHE - 1 := by
  obtain ⟨a, r, n⟩ := c
  cases op with
  | getAvailableFrame =>
    cases a <;> exact h
  | pushReadyFrame f =>
    simp only [OptimizedFrameCache.apply, pushReadyFrame_eq, List.length_append,
      List.length_drop, evictedFrames_length, List.length_singleton, MAX_FRAME_CACHE] at h ⊢
    omega
  | popReadyFrame t =>
    cases r with
    | nil => simp only [OptimizedFrameCache.apply, popReadyFrame_nil]; exact h
    | cons f rest =>
      simp only [OptimizedFrameCache.apply, popReadyFrame_cons, List.length_cons] at h ⊢
      omega
  | recycleFrame f => exact h
  | clear => simp [OptimizedFrameCache.apply, OptimizedFrameCache.clear]

/-- C11. In every state reachable from the constructed cache by any sequence
of `getAvailableFrame`, `pushReadyFrame`, `popReadyFrame`, `recycleFrame` and
`clear`, with any arguments, the ready queue holds at most
`MAX_FRAME_CACHE = 3` frames; it even holds at most `MAX_FRAME_CACHE - 1`. -/
theorem ready_queue_bounded (ops : List CacheOp) :
    MAX_FRAME_CACHE = 3 ∧
      (OptimizedFrameCache.new.run ops).ready_frames.length ≤ MAX_FRAME_CACHE ∧
      (OptimizedFrameCache.new.run ops).ready_frames.length ≤ MAX_FRAME_CACHE - 1 := by
  have h := cache_run_inv (fun c => c.ready_frames.length ≤ MAX_FRAME_CACHE - 1)
    ready_length_apply ops OptimizedFrameCache.new (by decide)
  exact ⟨rfl, le_trans h (by decide), h⟩

/-! ### Publish order -/

theorem trace_foldl_inv (P : QueueTrace → Prop)
    (hstep : ∀ t op, P t → P (t.step op)) (ops : List QueueOp) :
    ∀ t, P t → P (ops.foldl QueueTrace.step t) := by
  induction ops with
  | nil => exact fun t h => h
  | cons op ops ih => exact fun t h => ih (t.step op) (hstep t op h)

theorem trace_step_cache (t : QueueTrace) (op : QueueOp) :
    (t.step op).cache = t.cache.apply op.toCacheOp := by
  obtain ⟨⟨a, r, n⟩, pu, po, ev⟩ := t
  cases op with
  | push f => rfl
  | pop tm =>
    cases r with
    | nil => simp [QueueTrace.step, popReadyFrame_nil, OptimizedFrameCache.apply,
        QueueOp.toCacheOp]
    | cons f rest => simp [QueueTrace.step, popReadyFrame_cons, OptimizedFrameCache.apply,
        QueueOp.toCacheOp]

theorem trace_foldl_cache (ops : List QueueOp) :
    ∀ t : QueueTrace, (ops.foldl QueueTrace.step t).cache
      = t.cache.run (ops.map QueueOp.toCacheOp) := by
  induction ops with
  | nil => exact fun t => rfl
  | cons op ops ih =>
    intro t
    simp only [List.foldl_cons, List.map_cons, OptimizedFrameCache.run]
    rw [ih, trace_step_cache]
    rfl

/-- One recorded call keeps the returned frames followed by the ready queue a
subsequence of the published frames, and keeps every published frame in
exactly one of: returned, ready, evicted. -/
theorem trace_step_inv (R0 : List FrameData) (t : QueueTrace) (op : QueueOp)
    (h : List.Sublist (t.popped ++ t.cache.ready_frames) (R0 ++ t.pushed) ∧
      List.Perm (t.popped ++ t.cache.ready_frames ++ t.evicted) (R0 ++ t.pushed)) :
    List.Sublist ((t.step op).popped ++ (t.step op).cache.ready_frames)
        (R0 ++ (t.step op).pushed) ∧
      List.Perm ((t.step op).popped ++ (t.step op).cache.ready_frames ++ (t.step op).evicted)
        (R0 ++ (t.step op).pushed) := by
  obtain ⟨⟨a, r, n⟩, pu, po, ev⟩ := t
  obtain ⟨hsub, hperm⟩ := h
  cases op with
  | push f =>
    simp only [QueueTrace.step, pushReadyFrame_eq] at hsub hperm ⊢
    constructor
    · rw [← List.append_assoc, ← List.append_assoc]
      refine List.Sublist.append ?_ (List.Sublist.refl _)
      exact List.Sublist.trans
        (List.Sublist.append (List.Sublist.refl _) (List.drop_sublist _ _)) hsub
    · have hr : OptimizedFrameCache.evictedFrames r ++
          r.drop (OptimizedFrameCache.evictedFrames r).length = r := by
        conv_lhs => rw [evictedFrames_eq_take r]
        rw [List.length_take, Nat.min_eq_left (by rw [evictedFrames_length]; omega)]
        exact List.take_append_drop _ _
      have h1 : List.Perm
          (po ++ (r.drop (OptimizedFrameCache.evictedFrames r).length ++ [f])
            ++ (ev ++ OptimizedFrameCache.evictedFrames r))
          ((po ++ (OptimizedFrameCache.evictedFrames r ++
            r.drop (OptimizedFrameCache.evictedFrames r).length) ++ ev) ++ [f]) := by
        rw [← Multiset.coe_eq_coe]
        simp only [← Multiset.coe_add]
        abel
      rw [hr] at h1
      have h2 := h1.trans (hperm.append_right [f])
      simpa only [List.append_assoc] using h2
  | pop tm =>
    cases r with
    | nil =>
      simp only [QueueTrace.step, popReadyFrame_nil] at hsub hperm ⊢
      exact ⟨hsub, hperm⟩
    | cons f rest =>
      simp only [QueueTrace.step, popReadyFrame_cons] at hsub hperm ⊢
      simp only [List.append_assoc, List.singleton_append] at hsub hperm ⊢
      exact ⟨hsub, hperm⟩

/-- C12. For every sequence of `pushReadyFrame` and `popReadyFrame` calls,
with any timeouts, on a cache `c`: the frames that `popReadyFrame` returned,
in the order returned, form a subsequence of the frames published, in publish
order (the frames ready in `c` first, then the frames pushed); every published
frame is in exactly one of: returned, still ready, evicted; so when the
published frames are distinct, no evicted frame is ever returned. On the
constructed cache the returned frames are a subsequence of the pushed ones. -/
theorem pop_order_fifo (c : OptimizedFrameCache) (ops : List QueueOp) :
    (QueueTrace.run c ops).cache = c.run (ops.map QueueOp.toCacheOp) ∧
      List.Sublist (QueueTrace.run c ops).popped
        (c.ready_frames ++ (QueueTrace.run c ops).pushed) ∧
      List.Perm ((QueueTrace.run c ops).popped ++ (QueueTrace.run c ops).cache.ready_frames
          ++ (QueueTrace.run c ops).evicted)
        (c.ready_frames ++ (QueueTrace.run c ops).pushed) ∧
      ((c.ready_frames ++ (QueueTrace.run c ops).pushed).Nodup →
        ∀ f, f ∈ (QueueTrace.run c ops).evicted → f ∉ (QueueTrace.run c ops).popped) ∧
      List.Sublist (QueueTrace.run OptimizedFrameCache.new ops).popped
        (QueueTrace.run OptimizedFrameCache.new ops).pushed := by
  have key : ∀ c : OptimizedFrameCache,
      List.Sublist ((QueueTrace.run c ops).popped ++ (QueueTrace.run c ops).cache.ready_frames)
          (c.ready_frames ++ (QueueTrace.run c ops).pushed) ∧
        List.Perm ((QueueTrace.run c ops).popped ++ (QueueTrace.run c ops).cache.ready_frames
            ++ (QueueTrace.run c ops).evicted)
          (c.ready_frames ++ (QueueTrace.run c ops).pushed) := fun c =>
    trace_foldl_inv
      (fun t => List.Sublist (t.popped ++ t.cache.ready_frames) (c.ready_frames ++ t.pushed) ∧
        List.Perm (t.popped ++ t.cache.ready_frames ++ t.evicted) (c.ready_frames ++ t.pushed))
      (trace_step_inv c.ready_frames) ops ⟨c, [], [], []⟩ (by simp)
  have hsub : ∀ c : OptimizedFrameCache, List.Sublist (QueueTrace.run c ops).popped
      (c.ready_frames ++ (QueueTrace.run c ops).pushed) := fun c =>
    List.Sublist.trans (List.sublist_append_left _ _) (key c).1
  refine ⟨trace_foldl_cache ops _, hsub c, (key c).2, ?_, ?_⟩
  · intro hnd f hev hpo
    have hnd2 := ((key c).2.nodup_iff).mpr hnd
    rw [List.nodup_append] at hnd2
    exact hnd2.2.2 (List.mem_append_left _ hpo) hev
  · simpa [OptimizedFrameCache.new] using hsub OptimizedFrameCache.new

theorem pop_order_fifo_witness :
    (OptimizedFrameCache.new.ready_frames
        ++ (QueueTrace.run OptimizedFrameCache.new sampleQueueOps).pushed).Nodup ∧
      (QueueTrace.run OptimizedFrameCache.new sampleQueueOps).evicted = [sampleFrame 11] ∧
      (QueueTrace.run OptimizedFrameCache.new sampleQueueOps).popped
        = [sampleFrame 12, sampleFrame 13] ∧
      ∀ f, f ∈ (QueueTrace.run OptimizedFrameCache.new sampleQueueOps).evicted →
        f ∉ (QueueTrace.run OptimizedFrameCache.new sampleQueueOps).popped :=
  ⟨by decide, by decide, by decide,
    (pop_order_fifo OptimizedFrameCache.new sampleQueueOps).2.2.2.1 (by decide)⟩

/-! ### The methods of the cache -/

theorem reset_fields (f : FrameData) :
    f.reset.data = none ∧ f.reset.size = 0 ∧ f.reset.width = 0 ∧ f.reset.height = 0 ∧
      f.reset.fourCC = f.fourCC ∧ f.reset.id = f.id :=
  ⟨rfl, rfl, rfl, rfl, rfl, rfl⟩

/-- C13. `pushReadyFrame(f)` removes the evicted frames from the front of the
ready queue, oldest first, appends them, each reset (no data, size, width and
height 0), to the back of the available queue in eviction order, and appends
`f` at the back of the ready queue; the available queue grows by the number of
evicted frames and `|ready| + |available|` grows by exactly 1. -/
theorem pushReadyFrame_eviction (c : OptimizedFrameCache) (f : FrameData) :
    OptimizedFrameCache.evictedFrames c.ready_frames
        = c.ready_frames.take (OptimizedFrameCache.evictedFrames c.ready_frames).length ∧
      (c.pushReadyFrame f).ready_frames
        = c.ready_frames.drop (OptimizedFrameCache.evictedFrames c.ready_frames).length
          ++ [f] ∧
      (c.pushReadyFrame f).available_frames
        = c.available_frames
          ++ (OptimizedFrameCache.evictedFrames c.ready_frames).map FrameData.reset ∧
      (∀ g, g ∈ (OptimizedFrameCache.evictedFrames c.ready_frames).map FrameData.reset →
        g.data = none ∧ g.size = 0 ∧ g.width = 0 ∧ g.height = 0) ∧
      (c.pushReadyFrame f).available_frames.length
        = c.available_frames.length
          + (OptimizedFrameCache.evictedFrames c.ready_frames).length ∧
      (c.pushReadyFrame f).ready_frames.length + (c.pushReadyFrame f).available_frames.length
        = c.ready_frames.length + c.available_frames.length + 1 ∧
      (c.pushReadyFrame f).allocated = c.allocated := by
  refine ⟨evictedFrames_eq_take _, by rw [pushReadyFrame_eq], by rw [pushReadyFrame_eq], ?_,
    by rw [pushReadyFrame_eq]; simp, ?_, by rw [pushReadyFrame_eq]⟩
  · intro g hg
    obtain ⟨g0, _, rfl⟩ := List.mem_map.mp hg
    exact ⟨rfl, rfl, rfl, rfl⟩
  · rw [pushReadyFrame_eq]
    simp only [List.length_append, List.length_drop, List.length_map, List.length_singleton,
      evictedFrames_length]
    omega

/-- C14. `popReadyFrame` on an empty ready queue returns null and leaves the
cache as it was, for the timeout 0 as for any other in a sequential run; on a
ready queue `f :: rest` it returns `f` itself for every timeout, leaves
`rest` ready and leaves the available queue as it was. So `popReadyFrame(0)`
returns null exactly when the ready queue is empty. -/
theorem popReadyFrame_spec (available : List FrameData) (n : Nat) :
    OptimizedFrameCache.popReadyFrame ⟨available, [], n⟩ 0 = (none, ⟨available, [], n⟩) ∧
      (∀ t : Int,
        OptimizedFrameCache.popReadyFrame ⟨available, [], n⟩ t
          = (none, ⟨available, [], n⟩)) ∧
      (∀ (f : FrameData) (rest : List FrameData) (t : Int),
        OptimizedFrameCache.popReadyFrame ⟨available, f :: rest, n⟩ t
          = (some f, ⟨available, rest, n⟩)) ∧
      ∀ c : OptimizedFrameCache, (c.popReadyFrame 0).1 = none ↔ c.ready_frames = [] := by
  refine ⟨popReadyFrame_nil _ _ _, popReadyFrame_nil _ _,
    fun f rest t => popReadyFrame_cons _ f rest n t, ?_⟩
  rintro ⟨a, r, m⟩
  cases r with
  | nil => simp [popReadyFrame_nil]
  | cons f rest => simp [popReadyFrame_cons]

/-- C15. After `clear()` on a cache with ready queue `r1 .. rn` and available
queue `A`, the ready queue is empty and the available queue is `A` followed by
`r1 .. rn` in that order, each reset (no data, size, width and height 0); the
identities of the frames are those of before, none lost and none
duplicated. -/
theorem clear_spec (c : OptimizedFrameCache) :
    c.clear.ready_frames = [] ∧
      c.clear.available_frames = c.available_frames ++ c.ready_frames.map FrameData.reset ∧
      (∀ g, g ∈ c.ready_frames.map FrameData.reset →
        g.data = none ∧ g.size = 0 ∧ g.width = 0 ∧ g.height = 0) ∧
      c.clear.available_frames.map FrameData.id
        = c.available_frames.map FrameData.id ++ c.ready_frames.map FrameData.id ∧
      c.clear.available_frames.length + c.clear.ready_frames.length
        = c.available_frames.length + c.ready_frames.length ∧
      c.clear.allocated = c.allocated := by
  refine ⟨rfl, rfl, ?_, ?_, ?_, rfl⟩
  · intro g hg
    obtain ⟨g0, _, rfl⟩ := List.mem_map.mp hg
    exact ⟨rfl, rfl, rfl, rfl⟩
  · simp [OptimizedFrameCache.clear, Function.comp_def, FrameData.reset]
  · simp [OptimizedFrameCache.clear]

/-- C17. `recycleFrame(f)` appends `f` to the back of the available queue with
its size, width and height reset to 0 and its data buffer released, its fourCC
(and its identity) unchanged; the frames already in the available queue and
the ready queue are unchanged. -/
theorem recycleFrame_spec (c : OptimizedFrameCache) (f : FrameData) :
    (c.recycleFrame f).available_frames = c.available_frames ++ [f.reset] ∧
      f.reset.size = 0 ∧ f.reset.width = 0 ∧ f.reset.height = 0 ∧ f.reset.data = none ∧
      f.reset.fourCC = f.fourCC ∧ f.reset.id = f.id ∧
      (c.recycleFrame f).ready_frames = c.ready_frames ∧
      (c.recycleFrame f).allocated = c.allocated :=
  ⟨rfl, rfl, rfl, rfl, rfl, rfl, rfl, rfl, rfl⟩

/-! ### Ownership -/

theorem session_run_cons (s : Session) (op : CacheOp) (ops : List CacheOp) :
    Session.run s (op :: ops) = (s.step op).bind (fun s1 => Session.run s1 ops) := by
  simp [Session.run, List.foldlM_cons]

/-- Invariant rule for sessions: a property that every possible call of the
kind `Q` preserves holds after every sequence of such calls. -/
theorem session_run_inv (P : Session → Prop) (Q : CacheOp → Prop)
    (hstep : ∀ s op s', Q op → P s → s.step op = some s' → P s') (ops : List CacheOp) :
    ∀ s s', (∀ op, op ∈ ops → Q op) → P s → Session.run s ops = some s' → P s' := by
  induction ops with
  | nil =>
    intro s s' _ hP hrun
    simp only [Session.run, List.foldlM_nil] at hrun
    cases hrun
    exact hP
  | cons op ops ih =>
    intro s s' hQ hP hrun
    rw [session_run_cons] at hrun
    cases hs : s.step op with
    | none => rw [hs] at hrun; cases hrun
    | some s1 =>
      rw [hs] at hrun
      exact ih s1 s' (fun o ho => hQ o (List.mem_cons_of_mem _ ho))
        (hstep s op s1 (hQ op (List.mem_cons_self _ _)) hP hs) hrun

theorem evicted_append_drop (r : List FrameData) :
    OptimizedFrameCache.evictedFrames r
      ++ r.drop (OptimizedFrameCache.evictedFrames r).length = r := by
  conv_lhs => rw [evictedFrames_eq_take r]
  rw [List.length_take, Nat.min_eq_left (by rw [evictedFrames_length]; omega)]
  exact List.take_append_drop _ _

theorem map_id_reset (l : List FrameData) :
    (l.map FrameData.reset).map FrameData.id = l.map FrameData.id := by
  simp [Function.comp_def, FrameData.reset]

/-- A call moves identities between the queues and the callers; only
`getAvailableFrame` on an empty available queue adds one, the next
identity that the cache allocates. -/
theorem session_step_ids (s s' : Session) (op : CacheOp) (h : s.step op = some s') :
    ((s'.ids : Multiset Nat) = (s.ids : Multiset Nat) ∧
        s'.cache.allocated = s.cache.allocated) ∨
      ((s'.ids : Multiset Nat) = s.cache.allocated ::ₘ (s.ids : Multiset Nat) ∧
        s'.cache.allocated = s.cache.allocated + 1) := by
  obtain ⟨⟨a, r, n⟩, held, n1, n2, n3⟩ := s
  cases op with
  | getAvailableFrame =>
    cases a with
    | nil =>
      right
      simp only [Session.step, OptimizedFrameCache.getAvailableFrame, Option.some.injEq] at h
      subst h
      simp only [Session.ids, FrameData.new, List.map_nil, List.nil_append, and_true,
        ← Multiset.coe_add, ← Multiset.cons_coe, ← Multiset.singleton_add]
      abel
    | cons x rest =>
      left
      simp only [Session.step, OptimizedFrameCache.getAvailableFrame, Option.some.injEq] at h
      subst h
      simp only [Session.ids, List.map_cons, and_true,
        ← Multiset.coe_add, ← Multiset.cons_coe, ← Multiset.singleton_add]
      abel
  | pushReadyFrame f =>
    left
    simp only [Session.step] at h
    split at h
    · rename_i hmem
      simp only [Option.some.injEq] at h
      subst h
      have hr := congrArg (List.map FrameData.id) (evicted_append_drop r)
      have hh : (held : Multiset Nat) = {f.id} + ((held.erase f.id : List Nat) : Multiset Nat) := by
        rw [Multiset.singleton_add, ← Multiset.coe_erase]
        exact (Multiset.cons_erase (Multiset.mem_coe.mpr hmem)).symm
      simp only [Session.ids, pushReadyFrame_eq, List.map_append, map_id_reset, List.map_cons,
        List.map_nil, and_true, ← Multiset.coe_add, ← Multiset.cons_coe] at hr ⊢
      rw [hh, ← hr]
      simp only [← Multiset.coe_add, ← Multiset.cons_coe, ← Multiset.singleton_add,
        Multiset.coe_nil, Multiset.cons_zero]
      abel
    · cases h
  | popReadyFrame t =>
    left
    cases r with
    | nil =>
      simp only [Session.step, popReadyFrame_nil, Option.some.injEq] at h
      subst h
      exact ⟨rfl, rfl⟩
    | cons x rest =>
      simp only [Session.step, popReadyFrame_cons, Option.some.injEq] at h
      subst h
      simp only [Session.ids, List.map_cons, and_true,
        ← Multiset.coe_add, ← Multiset.cons_coe, ← Multiset.singleton_add]
      abel
  | recycleFrame f =>
    left
    simp only [Session.step] at h
    split at h
    · rename_i hmem
      simp only [Option.some.injEq] at h
      subst h
      have hh : (held : Multiset Nat) = {f.id} + ((held.erase f.id : List Nat) : Multiset Nat) := by
        rw [Multiset.singleton_add, ← Multiset.coe_erase]
        exact (Multiset.cons_erase (Multiset.mem_coe.mpr hmem)).symm
      simp only [Session.ids, OptimizedFrameCache.recycleFrame, List.map_append, List.map_cons,
        List.map_nil, and_true, ← Multiset.coe_add]
      rw [hh]
      simp only [← Multiset.coe_add, ← Multiset.cons_coe, ← Multiset.singleton_add,
        Multiset.coe_nil, Multiset.cons_zero, FrameData.reset]
      abel
    · cases h
  | clear =>
    left
    simp only [Session.step, Option.some.injEq] at h
    subst h
    simp only [Session.ids, OptimizedFrameCache.clear, List.map_append, map_id_reset,
      List.map_nil, and_true, ← Multiset.coe_add, Multiset.coe_nil]
    abel

/-- In every state a session reaches, no identity occurs twice among the
queues and the callers, and every identity is one the cache has allocated. -/
theorem session_ids_nodup (ops : List CacheOp) (s : Session)
    (h : Session.run Session.init ops = some s) :
    s.ids.Nodup ∧ ∀ i, i ∈ s.ids → i < s.cache.allocated := by
  refine session_run_inv (fun s => s.ids.Nodup ∧ ∀ i, i ∈ s.ids → i < s.cache.allocated)
    (fun _ => True) ?_ ops Session.init s (fun _ _ => trivial) (by decide) h
  rintro s op s' _ ⟨hnd, hlt⟩ hstep
  rcases session_step_ids s s' op hstep with ⟨hids, hal⟩ | ⟨hids, hal⟩
  · constructor
    · rw [← Multiset.coe_nodup, hids, Multiset.coe_nodup]
      exact hnd
    · intro i hi
      rw [← Multiset.mem_coe, hids, Multiset.mem_coe] at hi
      rw [hal]
      exact hlt i hi
  · constructor
    · rw [← Multiset.coe_nodup, hids, Multiset.nodup_cons, Multiset.coe_nodup,
        Multiset.mem_coe]
      exact ⟨fun hmem => Nat.lt_irrefl _ (hlt _ hmem), hnd⟩
    · intro i hi
      rw [← Multiset.mem_coe, hids, Multiset.mem_cons, Multiset.mem_coe] at hi
      rw [hal]
      rcases hi with rfl | hi
      · exact Nat.lt_succ_self _
      · exact Nat.lt_succ_of_lt (hlt i hi)

/-- The frame `getAvailableFrame` returns is none of the frames that stay in
the queues or that a caller holds. -/
theorem getAvailableFrame_fresh (ops : List CacheOp) (s : Session)
    (h : Session.run Session.init ops = some s) :
    s.cache.getAvailableFrame.1.id ∉
      s.cache.getAvailableFrame.2.available_frames.map FrameData.id
        ++ s.cache.ready_frames.map FrameData.id ++ s.held := by
  obtain ⟨hnd, hlt⟩ := session_ids_nodup ops s h
  obtain ⟨⟨a, r, n⟩, held, n1, n2, n3⟩ := s
  cases a with
  | nil =>
    intro hmem
    exact Nat.lt_irrefl _ (hlt n (by simpa [Session.ids, OptimizedFrameCache.getAvailableFrame,
      FrameData.new] using hmem))
  | cons x rest =>
    simp only [Session.ids, List.map_cons, List.cons_append, List.nodup_cons] at hnd
    simpa [OptimizedFrameCache.getAvailableFrame] using hnd.1

/-- C16. `getAvailableFrame` always returns a frame. When the available queue
is `a :: rest` it returns `a` and leaves `rest` available; when the available
queue is empty it returns a newly constructed frame and the available queue
stays empty; in both cases the ready queue is unchanged. In every state
reached from the constructed cache by calls in which callers hand back only
frames they own, the newly constructed frame is distinct from every frame in
the cache and from every frame a caller holds. -/
theorem getAvailableFrame_spec (ops : List CacheOp) (s : Session)
    (h : Session.run Session.init ops = some s) :
    (∀ (a : FrameData) (rest ready : List FrameData) (n : Nat),
        OptimizedFrameCache.getAvailableFrame ⟨a :: rest, ready, n⟩
          = (a, ⟨rest, ready, n⟩)) ∧
      (∀ (ready : List FrameData) (n : Nat),
        OptimizedFrameCache.getAvailableFrame ⟨[], ready, n⟩
          = (FrameData.new n, ⟨[], ready, n + 1⟩)) ∧
      (∀ n : Nat, (FrameData.new n).data = none ∧ (FrameData.new n).size = 0 ∧
        (FrameData.new n).width = 0 ∧ (FrameData.new n).height = 0) ∧
      (∀ c : OptimizedFrameCache, c.getAvailableFrame.2.ready_frames = c.ready_frames) ∧
      (s.cache.available_frames = [] →
        s.cache.getAvailableFrame.1 = FrameData.new s.cache.allocated ∧
        (∀ f, f ∈ s.cache.available_frames ++ s.cache.ready_frames →
          s.cache.getAvailableFrame.1.id ≠ f.id) ∧
        s.cache.getAvailableFrame.1.id ∉ s.held) := by
  refine ⟨fun _ _ _ _ => rfl, fun _ _ => rfl, fun _ => ⟨rfl, rfl, rfl, rfl⟩, ?_, ?_⟩
  · rintro ⟨a, r, n⟩
    cases a <;> rfl
  · intro hnil
    have hfresh := getAvailableFrame_fresh ops s h
    obtain ⟨⟨a, r, n⟩, held, n1, n2, n3⟩ := s
    simp only at hnil
    subst hnil
    simp only [OptimizedFrameCache.getAvailableFrame, List.map_nil, List.nil_append,
      List.mem_append, List.mem_map, not_or, not_exists, not_and] at hfresh ⊢
    exact ⟨trivial, fun f hf heq => hfresh.1 f hf heq.symm, hfresh.2⟩

theorem getAvailableFrame_spec_witness :
    Session.run Session.init
        [.getAvailableFrame, .getAvailableFrame, .getAvailableFrame,
          .pushReadyFrame (FrameData.new 1)]
      = some ⟨⟨[], [FrameData.new 1], 3⟩, [2, 0], 3, 0, 0⟩ ∧
      OptimizedFrameCache.getAvailableFrame ⟨[], [FrameData.new 1], 3⟩
        = (FrameData.new 3, ⟨[], [FrameData.new 1], 4⟩) ∧
      (∀ f, f ∈ ([] : List FrameData) ++ [FrameData.new 1] →
        (OptimizedFrameCache.getAvailableFrame ⟨[], [FrameData.new 1], 3⟩).1.id ≠ f.id) :=
  ⟨by decide, rfl,
    ((getAvailableFrame_spec
      [.getAvailableFrame, .getAvailableFrame, .getAvailableFrame,
        .pushReadyFrame (FrameData.new 1)]
      ⟨⟨[], [FrameData.new 1], 3⟩, [2, 0], 3, 0, 0⟩ (by decide)).2.2.2.2 rfl).2.1⟩

/-- C19. In every state reached from the constructed cache by
`getAvailableFrame`, `pushReadyFrame`, `popReadyFrame`, `recycleFrame` and
`clear`, where `pushReadyFrame` and `recycleFrame` are applied only to frames a
caller holds, every frame identity occurs in at most one of the available
queue, the ready queue and the callers' holdings, and at most once there; the
frame that `getAvailableFrame` returns next is neither held by a caller nor in
the ready queue, so a frame handed out is not handed out again before it has
gone back to the available queue. -/
theorem frame_ownership_exclusive (ops : List CacheOp) (s : Session)
    (h : Session.run Session.init ops = some s) :
    (s.cache.available_frames.map FrameData.id ++ s.cache.ready_frames.map FrameData.id
        ++ s.held).Nodup ∧
      s.cache.getAvailableFrame.1.id ∉ s.held ∧
      s.cache.getAvailableFrame.1.id ∉ s.cache.ready_frames.map FrameData.id ∧
      s.cache.getAvailableFrame.1.id ∉
        s.cache.getAvailableFrame.2.available_frames.map FrameData.id := by
  have hfresh := getAvailableFrame_fresh ops s h
  simp only [List.mem_append, not_or] at hfresh
  exact ⟨(session_ids_nodup ops s h).1, hfresh.2, hfresh.1.2, hfresh.1.1⟩

theorem frame_ownership_exclusive_witness :
    Session.run Session.init sampleSessionOps
        = some ⟨⟨[FrameData.new 0, FrameData.new 1], [], 4⟩, [3, 2], 4, 1, 1⟩ ∧
      ([0, 1] ++ [] ++ [3, 2] : List Nat).Nodup :=
  ⟨by decide,
    (frame_ownership_exclusive sampleSessionOps
      ⟨⟨[FrameData.new 0, FrameData.new 1], [], 4⟩, [3, 2], 4, 1, 1⟩ (by decide)).1⟩

/-! ### Pool conservation -/

/-- A call of the pool keeps the ready queue empty and keeps the balance of
the frames: those handed out and not recycled are the ones held, and every
frame of the pool is available or held. -/
theorem pool_step_inv (s : Session) (op : CacheOp) (s' : Session) (hop : op.isPool = true)
    (hP : s.cache.ready_frames = [] ∧ s.held.length + s.recycled = s.acquired ∧
      s.cache.available_frames.length + s.held.length = MAX_FRAME_CACHE + s.grown)
    (h : s.step op = some s') :
    s'.cache.ready_frames = [] ∧ s'.held.length + s'.recycled = s'.acquired ∧
      s'.cache.available_frames.length + s'.held.length = MAX_FRAME_CACHE + s'.grown := by
  obtain ⟨⟨a, r, n⟩, held, n1, n2, n3⟩ := s
  obtain ⟨hr, hbal, hcons⟩ := hP
  simp only at hr hbal hcons
  cases op with
  | getAvailableFrame =>
    simp only [Session.step, Option.some.injEq] at h
    subst h
    cases a with
    | nil =>
      simp only [OptimizedFrameCache.getAvailableFrame, List.length_cons, List.length_nil,
        List.isEmpty_nil, if_true] at hcons ⊢
      exact ⟨hr, by omega, by omega⟩
    | cons x rest =>
      simp only [OptimizedFrameCache.getAvailableFrame, List.length_cons,
        List.isEmpty_cons] at hcons ⊢
      exact ⟨hr, by omega, by simp; omega⟩
  | recycleFrame f =>
    simp only [Session.step] at h
    split at h
    · rename_i hmem
      simp only [Option.some.injEq] at h
      subst h
      have hpos := List.length_pos_of_mem hmem
      simp only [OptimizedFrameCache.recycleFrame, List.length_append, List.length_singleton,
        List.length_erase_of_mem hmem]
      exact ⟨hr, by omega, by omega⟩
    · cases h
  | pushReadyFrame f => cases hop
  | popReadyFrame t => cases hop
  | clear => cases hop

/-- The counters of a run of pool calls count its calls. -/
theorem pool_run_counts (ops : List CacheOp) :
    ∀ s s' : Session, (∀ op, op ∈ ops → op.isPool = true) → Session.run s ops = some s' →
      s'.acquired = s.acquired + ops.count .getAvailableFrame ∧
      s'.acquired + s'.recycled = s.acquired + s.recycled + ops.length := by
  induction ops with
  | nil =>
    intro s s' _ hrun
    simp only [Session.run, List.foldlM_nil] at hrun
    cases hrun
    simp
  | cons op ops ih =>
    intro s s' hQ hrun
    rw [session_run_cons] at hrun
    cases hs : s.step op with
    | none => rw [hs] at hrun; cases hrun
    | some s1 =>
      rw [hs] at hrun
      obtain ⟨h1, h2⟩ := ih s1 s' (fun o ho => hQ o (List.mem_cons_of_mem _ ho)) hrun
      have hop := hQ op (List.mem_cons_self _ _)
      cases op with
      | getAvailableFrame =>
        simp only [Session.step, Option.some.injEq] at hs
        subst hs
        simp only [List.count_cons_self, List.length_cons] at h1 h2 ⊢
        exact ⟨by omega, by omega⟩
      | recycleFrame f =>
        simp only [Session.step] at hs
        split at hs
        · simp only [Option.some.injEq] at hs
          subst hs
          simp only [List.length_cons] at h1 h2 ⊢
          rw [List.count_cons_of_ne (by simp)]
          exact ⟨by omega, by omega⟩
        · cases hs
      | pushReadyFrame f => cases hop
      | popReadyFrame t => cases hop
      | clear => cases hop

/-- C18. For every sequence of `getAvailableFrame` and `recycleFrame` calls on
a constructed cache in which `recycleFrame` is applied only to a frame handed
out and not yet recycled, the number of outstanding frames is the number of
`getAvailableFrame` calls minus the number of `recycleFrame` calls, is never
negative, and `|available| + outstanding = MAX_FRAME_CACHE +` the number of
`getAvailableFrame` calls that found the available queue empty. -/
theorem pool_conservation (ops : List CacheOp) (s : Session)
    (hpool : ∀ op, op ∈ ops → op.isPool = true)
    (h : Session.run Session.init ops = some s) :
    s.acquired = ops.count .getAvailableFrame ∧
      s.acquired + s.recycled = ops.length ∧
      (s.held.length : Int) = (s.acquired : Int) - (s.recycled : Int) ∧
      s.recycled ≤ s.acquired ∧
      s.cache.available_frames.length + s.held.length = MAX_FRAME_CACHE + s.grown ∧
      s.cache.ready_frames = [] := by
  obtain ⟨hr, hbal, hcons⟩ := session_run_inv
    (fun s => s.cache.ready_frames = [] ∧ s.held.length + s.recycled = s.acquired ∧
      s.cache.available_frames.length + s.held.length = MAX_FRAME_CACHE + s.grown)
    (fun op => op.isPool = true) pool_step_inv ops Session.init s hpool (by decide) h
  obtain ⟨h1, h2⟩ := pool_run_counts ops Session.init s hpool h
  simp only [Session.init, Nat.zero_add] at h1 h2
  exact ⟨h1, h2, by omega, by omega, hcons, hr⟩

theorem pool_conservation_witness :
    (∀ op, op ∈ samplePoolOps → op.isPool = true) ∧
      Session.run Session.init samplePoolOps
        = some ⟨⟨[], [], 4⟩, [2, 3, 1, 0], 5, 1, 1⟩ ∧
      (([2, 3, 1, 0] : List Nat).length : Int) = ((5 : Nat) : Int) - ((1 : Nat) : Int) ∧
      ([] : List FrameData).length + ([2, 3, 1, 0] : List Nat).length
        = MAX_FRAME_CACHE + 1 :=
  ⟨by decide, by decide,
    (pool_conservation samplePoolOps ⟨⟨[], [], 4⟩, [2, 3, 1, 0], 5, 1, 1⟩
      (by decide) (by decide)).2.2.1,
    (pool_conservation samplePoolOps ⟨⟨[], [], 4⟩, [2, 3, 1, 0], 5, 1, 1⟩
      (by decide) (by decide)).2.2.2.2.1⟩

/-! ### The capture loop -/

/-- In every state of the cache reached from construction by any calls, with
any arguments, the frames of the available queue are reset. -/
theorem available_reset (ops : List CacheOp) :
    ∀ f, f ∈ (OptimizedFrameCache.new.run ops).available_frames → f = f.reset := by
  refine cache_run_inv (fun c => ∀ f, f ∈ c.available_frames → f = f.reset) ?_ ops
    OptimizedFrameCache.new (by decide)
  rintro ⟨a, r, n⟩ op hP
  have hmap : ∀ (l : List FrameData) (f : FrameData), f ∈ l.map FrameData.reset →
      f = f.reset := by
    intro l f hf
    obtain ⟨g, _, rfl⟩ := List.mem_map.mp hf
    rfl
  cases op with
  | getAvailableFrame =>
    cases a with
    | nil => exact hP
    | cons x rest => exact fun f hf => hP f (List.mem_cons_of_mem _ hf)
  | pushReadyFrame g =>
    intro f hf
    simp only [OptimizedFrameCache.apply, pushReadyFrame_eq, List.mem_append] at hf
    rcases hf with hf | hf
    · exact hP f hf
    · exact hmap _ f hf
  | popReadyFrame t =>
    cases r with
    | nil => simpa only [OptimizedFrameCache.apply, popReadyFrame_nil] using hP
    | cons x rest => simpa only [OptimizedFrameCache.apply, popReadyFrame_cons] using hP
  | recycleFrame g =>
    intro f hf
    simp only [OptimizedFrameCache.apply, OptimizedFrameCache.recycleFrame, List.mem_append,
      List.mem_singleton] at hf
    rcases hf with hf | hf
    · exact hP f hf
    · rw [hf]; rfl
  | clear =>
    intro f hf
    simp only [OptimizedFrameCache.apply, OptimizedFrameCache.clear, List.mem_append] at hf
    rcases hf with hf | hf
    · exact hP f hf
    · exact hmap _ f hf

/-- The frame that the capture loop acquires has no data buffer. -/
theorem acquired_frame_data (ops : List CacheOp) :
    (OptimizedFrameCache.new.run ops).getAvailableFrame.1.data = none := by
  have h := available_reset ops
  generalize OptimizedFrameCache.new.run ops = c at h
  obtain ⟨a, r, n⟩ := c
  cases a with
  | nil => rfl
  | cons x rest =>
    have := h x (List.mem_cons_self _ _)
    simp only [OptimizedFrameCache.getAvailableFrame]
    rw [this]
    rfl

/-- C20. In an iteration of the capture loop, started in any state of the
cache reached from construction, in which the source returns a video frame
with data and `size = yres * line_stride_in_bytes > 0` bytes available: the
frame appended at the back of the ready queue is the acquired frame with
width `xres`, height `yres`, the FourCC of the source, that size, and data
equal to the first `size` bytes of the source buffer, in a buffer of exactly
`size` bytes; the video buffer of the source is released exactly once, after
the copy. -/
theorem capture_video_publishes (ops : List CacheOp) (vf : NDIlib_video_frame_v2_t)
    (d : List Byte) (hdata : vf.p_data = some d)
    (hpos : 0 < vf.yres * vf.line_stride_in_bytes)
    (hlen : vf.yres * vf.line_stride_in_bytes ≤ d.length) :
    ∃ c', captureIteration (OptimizedFrameCache.new.run ops) .video vf
          = some (c', [.memcpy (vf.yres * vf.line_stride_in_bytes), .free_video]) ∧
      c' = (OptimizedFrameCache.new.run ops).getAvailableFrame.2.pushReadyFrame
        ⟨(OptimizedFrameCache.new.run ops).getAvailableFrame.1.id,
          some (d.take (vf.yres * vf.line_stride_in_bytes)),
          vf.yres * vf.line_stride_in_bytes, vf.xres, vf.yres, vf.FourCC⟩ ∧
      c'.ready_frames.getLast? = some
        ⟨(OptimizedFrameCache.new.run ops).getAvailableFrame.1.id,
          some (d.take (vf.yres * vf.line_stride_in_bytes)),
          vf.yres * vf.line_stride_in_bytes, vf.xres, vf.yres, vf.FourCC⟩ ∧
      (d.take (vf.yres * vf.line_stride_in_bytes)).length
        = vf.yres * vf.line_stride_in_bytes ∧
      ([CaptureEvent.memcpy (vf.yres * vf.line_stride_in_bytes),
        CaptureEvent.free_video]).count .free_video = 1 := by
  have hnone := acquired_frame_data ops
  generalize OptimizedFrameCache.new.run ops = c at hnone ⊢
  have hcopy : memcpy (List.replicate (vf.yres * vf.line_stride_in_bytes) 0) d
      (vf.yres * vf.line_stride_in_bytes)
      = some (d.take (vf.yres * vf.line_stride_in_bytes)) := by
    simp [memcpy, hlen]
  refine ⟨_, ?_, rfl, ?_, ?_, by simp⟩
  · simp only [captureIteration, hdata, hnone, if_pos hpos, gt_iff_lt, hcopy]
  · rw [pushReadyFrame_eq]
    simp
  · simp [List.length_take, hlen]

theorem capture_video_publishes_witness :
    sampleBGRA.p_data = some sampleBGRABytes ∧
      0 < sampleBGRA.yres * sampleBGRA.line_stride_in_bytes ∧
      ∃ c', captureIteration (OptimizedFrameCache.new.run []) .video sampleBGRA
            = some (c', [.memcpy 16, .free_video]) ∧
        c'.ready_frames = [⟨0, some sampleBGRABytes, 16, 2, 2, .BGRA⟩] :=
  ⟨rfl, by decide,
    (capture_video_publishes [] sampleBGRA sampleBGRABytes rfl (by decide) (by decide)).imp
      (fun _ h => ⟨h.1, by rw [h.2.1]; decide⟩)⟩

/-- An iteration that does not publish recycles the acquired frame. -/
theorem captureIteration_recycles (c : OptimizedFrameCache) (ft : NDIlib_frame_type_e)
    (vf : NDIlib_video_frame_v2_t)
    (h : ft ≠ .video ∨ vf.p_data = none ∨ vf.yres * vf.line_stride_in_bytes = 0) :
    ∃ ev, captureIteration c ft vf
          = some (c.getAvailableFrame.2.recycleFrame c.getAvailableFrame.1, ev) ∧
      (ev = [.free_video] ∨ ev = [.free_audio] ∨ ev = [.sleep 1] ∨ ev = [.sleep 5]) := by
  cases ft with
  | video =>
    rcases h with h | h | h
    · exact absurd rfl h
    · exact ⟨[.free_video], by simp [captureIteration, h], Or.inl rfl⟩
    · refine ⟨[.free_video], ?_, Or.inl rfl⟩
      cases hd : vf.p_data with
      | none => simp [captureIteration, hd]
      | some d => simp [captureIteration, hd, h]
  | none => exact ⟨[.sleep 1], rfl, Or.inr (Or.inr (Or.inl rfl))⟩
  | audio => exact ⟨[.free_audio], rfl, Or.inr (Or.inl rfl)⟩
  | metadata => exact ⟨[.sleep 5], rfl, Or.inr (Or.inr (Or.inr rfl))⟩
  | error => exact ⟨[.sleep 5], rfl, Or.inr (Or.inr (Or.inr rfl))⟩
  | status_change => exact ⟨[.sleep 5], rfl, Or.inr (Or.inr (Or.inr rfl))⟩

/-- The frame recycled by an iteration that does not publish leaves the ready
queue as it was. -/
theorem recycle_acquired_ready (c : OptimizedFrameCache) :
    (c.getAvailableFrame.2.recycleFrame c.getAvailableFrame.1).ready_frames
      = c.ready_frames := by
  obtain ⟨a, r, n⟩ := c
  cases a <;> rfl

/-- A run of the capture loop over results none of which is a video frame with
data and positive size: every iteration is made, each contributes exactly one
event, nothing is copied and the ready queue is the one the run started
with. -/
theorem captureLoop_idle (rest : List (NDIlib_frame_type_e × NDIlib_video_frame_v2_t)) :
    ∀ c : OptimizedFrameCache,
      (∀ r ∈ rest, r.1 ≠ .video ∨ r.2.p_data = none ∨
        r.2.yres * r.2.line_stride_in_bytes = 0) →
      ∃ c' ev, captureLoop c rest = some (c', ev) ∧
        c'.ready_frames = c.ready_frames ∧ ev.length = rest.length ∧
        ∀ n, CaptureEvent.memcpy n ∉ ev := by
  induction rest with
  | nil =>
    intro c _
    exact ⟨c, [], rfl, rfl, rfl, fun n hn => by simp at hn⟩
  | cons r rest ih =>
    intro c hall
    obtain ⟨ft, vf⟩ := r
    obtain ⟨ev, hrun, hev⟩ :=
      captureIteration_recycles c ft vf (hall (ft, vf) (List.mem_cons_self _ _))
    obtain ⟨c2, later, hloop, hready, hlen, hcopy⟩ :=
      ih (c.getAvailableFrame.2.recycleFrame c.getAvailableFrame.1)
        (fun r hr => hall r (List.mem_cons_of_mem _ hr))
    refine ⟨c2, ev ++ later, ?_, ?_, ?_, ?_⟩
    · simp only [captureLoop, hrun, hloop]
    · rw [hready, recycle_acquired_ready]
    · rcases hev with rfl | rfl | rfl | rfl <;> simp [hlen, Nat.add_comm]
    · intro n hn
      rcases List.mem_append.mp hn with hn | hn
      · rcases hev with rfl | rfl | rfl | rfl <;> simp at hn
      · exact hcopy n hn

/-- C21. In an iteration of the capture loop in which the source returns no
data, an error, an audio frame, any other frame type that is not video, or a
video frame with null data or zero byte size, the frame acquired at the start
of the iteration is recycled: it is appended, reset, to the available queue;
nothing is copied and the ready queue is unchanged. The loop then goes on: a
loop that makes this iteration alone ends in the recycled state with the
events of the iteration; with one more result of the source it makes the next
iteration from the recycled state, whatever that result is; with any further
results it continues from the recycled state; and over any number of further
results of the kinds above it makes every iteration, one event each, copies
nothing and leaves the ready queue unchanged. -/
theorem capture_no_video_recycles (c : OptimizedFrameCache) (ft : NDIlib_frame_type_e)
    (vf : NDIlib_video_frame_v2_t)
    (h : ft ≠ .video ∨ vf.p_data = none ∨ vf.yres * vf.line_stride_in_bytes = 0) :
    ∃ c' ev, captureIteration c ft vf = some (c', ev) ∧
      c' = c.getAvailableFrame.2.recycleFrame c.getAvailableFrame.1 ∧
      c'.available_frames
        = c.getAvailableFrame.2.available_frames ++ [c.getAvailableFrame.1.reset] ∧
      c'.ready_frames = c.ready_frames ∧
      (∀ n, CaptureEvent.memcpy n ∉ ev) ∧
      (∀ rest, captureLoop c ((ft, vf) :: rest)
        = (captureLoop c' rest).map (fun r => (r.1, ev ++ r.2))) ∧
      ev.length = 1 ∧
      captureLoop c [(ft, vf)] = some (c', ev) ∧
      (∀ ft2 vf2, captureLoop c [(ft, vf), (ft2, vf2)]
        = (captureIteration c' ft2 vf2).map (fun r => (r.1, ev ++ r.2))) ∧
      ∀ rest, (∀ r ∈ rest, r.1 ≠ .video ∨ r.2.p_data = none ∨
          r.2.yres * r.2.line_stride_in_bytes = 0) →
        ∃ c2 later, captureLoop c ((ft, vf) :: rest) = some (c2, ev ++ later) ∧
          captureLoop c' rest = some (c2, later) ∧
          c2.ready_frames = c.ready_frames ∧ later.length = rest.length ∧
          ∀ n, CaptureEvent.memcpy n ∉ later := by
  obtain ⟨ev, hrun, hev⟩ := captureIteration_recycles c ft vf h
  refine ⟨_, ev, hrun, rfl, rfl, recycle_acquired_ready c, ?_, ?_, ?_, ?_, ?_, ?_⟩
  · intro n hn
    rcases hev with rfl | rfl | rfl | rfl <;> simp at hn
  · intro rest
    simp only [captureLoop, hrun]
    cases captureLoop (c.getAvailableFrame.2.recycleFrame c.getAvailableFrame.1) rest <;> rfl
  · rcases hev with rfl | rfl | rfl | rfl <;> rfl
  · simp only [captureLoop, hrun, List.append_nil]
  · intro ft2 vf2
    simp only [captureLoop, hrun]
    cases captureIteration (c.getAvailableFrame.2.recycleFrame c.getAvailableFrame.1)
      ft2 vf2 with
    | none => rfl
    | some r => simp only [Option.map_some', List.append_nil]
  · intro rest hrest
    obtain ⟨c2, later, hloop, hready, hlen, hcopy⟩ :=
      captureLoop_idle rest (c.getAvailableFrame.2.recycleFrame c.getAvailableFrame.1) hrest
    refine ⟨c2, later, ?_, hloop, ?_, hlen, hcopy⟩
    · simp only [captureLoop, hrun, hloop]
    · rw [hready, recycle_acquired_ready]

theorem capture_no_video_recycles_witness :
    (NDIlib_frame_type_e.audio ≠ .video ∨ sampleBGRA.p_data = none ∨
        sampleBGRA.yres * sampleBGRA.line_stride_in_bytes = 0) ∧
      ∃ c' ev, captureIteration OptimizedFrameCache.new .audio sampleBGRA = some (c', ev) ∧
        c'.available_frames = [FrameData.new 1, FrameData.new 2, FrameData.new 0] ∧
        c'.ready_frames = [] ∧
        captureLoop OptimizedFrameCache.new [(.audio, sampleBGRA)] = some (c', ev) ∧
        captureLoop OptimizedFrameCache.new [(.audio, sampleBGRA), (.video, sampleBGRA)]
          = (captureIteration c' .video sampleBGRA).map (fun r => (r.1, ev ++ r.2)) ∧
        ∃ c2 later,
          captureLoop OptimizedFrameCache.new
              [(.audio, sampleBGRA), (.none, sampleBGRA), (.error, sampleBGRA)]
            = some (c2, ev ++ later) ∧
          c2.ready_frames = [] ∧ later.length = 2 :=
  ⟨Or.inl (by decide),
    (capture_no_video_recycles OptimizedFrameCache.new .audio sampleBGRA
      (Or.inl (by decide))).imp
      (fun _ h => h.imp (fun _ h =>
        ⟨h.1, by rw [h.2.1]; decide, by rw [h.2.1]; decide, h.2.2.2.2.2.2.2.1,
          h.2.2.2.2.2.2.2.2.1 .video sampleBGRA,
          (h.2.2.2.2.2.2.2.2.2 [(.none, sampleBGRA), (.error, sampleBGRA)]
            (by decide)).imp
            (fun _ g => g.imp (fun _ g => ⟨g.1, g.2.2.1, g.2.2.2.1⟩))⟩))⟩

/-- C22 fails as stated: when the source returns `NDIlib_frame_type_error` the
iteration takes the `default` branch of the switch and requests a sleep of
5 ms, not of 100 ms. -/
theorem capture_error_sleep_counterexample :
    (captureIteration OptimizedFrameCache.new .error sampleBGRA).map Prod.snd
        = some [CaptureEvent.sleep 5] ∧
      (captureIteration OptimizedFrameCache.new .error sampleBGRA).map Prod.snd
        ≠ some [CaptureEvent.sleep 100] := by
  decide

/-- C22, amended. An iteration of the capture loop requests a sleep of 1 ms
when the source returns no data (`NDIlib_frame_type_none`), and a sleep of
5 ms when the source returns an error (`NDIlib_frame_type_error`) or another
type handled by the `default` branch (metadata, status change). -/
theorem capture_requested_sleep (c : OptimizedFrameCache) (vf : NDIlib_video_frame_v2_t) :
    (captureIteration c .none vf).map Prod.snd = some [CaptureEvent.sleep 1] ∧
      (captureIteration c .error vf).map Prod.snd = some [CaptureEvent.sleep 5] ∧
      (captureIteration c .metadata vf).map Prod.snd = some [CaptureEvent.sleep 5] ∧
      (captureIteration c .status_change vf).map Prod.snd = some [CaptureEvent.sleep 5] :=
  ⟨rfl, rfl, rfl, rfl⟩

/-- C25. In every state of the cache reached from construction by any calls,
whatever frames are passed to `recycleFrame` and `pushReadyFrame`, every frame
of the available queue is reset (no data, size, width and height 0), so the
frame `getAvailableFrame` returns has no data. In the video branch of the
capture loop the destination of the copy is then a fresh buffer of exactly
`frame_size` bytes: the copy of `frame_size` bytes stays inside it, and the
iteration leaves a buffer only if the source holds fewer than `frame_size`
bytes. -/
theorem available_frames_reset (ops : List CacheOp) (vf : NDIlib_video_frame_v2_t)
    (d : List Byte) (hdata : vf.p_data = some d)
    (hpos : 0 < vf.yres * vf.line_stride_in_bytes) :
    (∀ f, f ∈ (OptimizedFrameCache.new.run ops).available_frames →
        f.data = none ∧ f.size = 0 ∧ f.width = 0 ∧ f.height = 0) ∧
      (OptimizedFrameCache.new.run ops).getAvailableFrame.1.data = none ∧
      captureIteration (OptimizedFrameCache.new.run ops) .video vf
        = (memcpy (List.replicate (vf.yres * vf.line_stride_in_bytes) 0) d
            (vf.yres * vf.line_stride_in_bytes)).map
          (fun data =>
            ((OptimizedFrameCache.new.run ops).getAvailableFrame.2.pushReadyFrame
              ⟨(OptimizedFrameCache.new.run ops).getAvailableFrame.1.id, some data,
                vf.yres * vf.line_stride_in_bytes, vf.xres, vf.yres, vf.FourCC⟩,
              [.memcpy (vf.yres * vf.line_stride_in_bytes), .free_video])) ∧
      (List.replicate (vf.yres * vf.line_stride_in_bytes) (0 : Byte)).length
        = vf.yres * vf.line_stride_in_bytes ∧
      (captureIteration (OptimizedFrameCache.new.run ops) .video vf = none ↔
        d.length < vf.yres * vf.line_stride_in_bytes) := by
  have hnone := acquired_frame_data ops
  have hres := available_reset ops
  generalize OptimizedFrameCache.new.run ops = c at hnone hres ⊢
  have hiter : captureIteration c .video vf
      = (memcpy (List.replicate (vf.yres * vf.line_stride_in_bytes) 0) d
          (vf.yres * vf.line_stride_in_bytes)).map
        (fun data =>
          (c.getAvailableFrame.2.pushReadyFrame
            ⟨c.getAvailableFrame.1.id, some data,
              vf.yres * vf.line_stride_in_bytes, vf.xres, vf.yres, vf.FourCC⟩,
            [.memcpy (vf.yres * vf.line_stride_in_bytes), .free_video])) := by
    simp only [captureIteration, hdata, hnone, if_pos hpos, gt_iff_lt]
    cases memcpy (List.replicate (vf.yres * vf.line_stride_in_bytes) 0) d
      (vf.yres * vf.line_stride_in_bytes) <;> rfl
  refine ⟨?_, hnone, hiter, by simp, ?_⟩
  · intro f hf
    have h := hres f hf
    exact ⟨by rw [h]; rfl, by rw [h]; rfl, by rw [h]; rfl, by rw [h]; rfl⟩
  · rw [hiter]
    by_cases hle : vf.yres * vf.line_stride_in_bytes ≤ d.length
    · have hn : ¬ d.length < vf.yres * vf.line_stride_in_bytes := by omega
      simp [memcpy, hle, hn]
    · have hn : d.length < vf.yres * vf.line_stride_in_bytes := by omega
      simp [memcpy, hle, hn]

theorem available_frames_reset_witness :
    sampleBGRA.p_data = some sampleBGRABytes ∧
      0 < sampleBGRA.yres * sampleBGRA.line_stride_in_bytes ∧
      (OptimizedFrameCache.new.run
        [.recycleFrame (sampleFrame 7), .pushReadyFrame (sampleFrame 8), .clear]).available_frames
        = [FrameData.new 0, FrameData.new 1, FrameData.new 2, (sampleFrame 7).reset,
            (sampleFrame 8).reset] ∧
      ∀ f, f ∈ (OptimizedFrameCache.new.run
          [.recycleFrame (sampleFrame 7), .pushReadyFrame (sampleFrame 8),
            .clear]).available_frames →
        f.data = none ∧ f.size = 0 ∧ f.width = 0 ∧ f.height = 0 :=
  ⟨rfl, by decide, by decide,
    (available_frames_reset
      [.recycleFrame (sampleFrame 7), .pushReadyFrame (sampleFrame 8), .clear]
      sampleBGRA sampleBGRABytes rfl (by decide)).1⟩

/-- C26. For every ready queue `q` and frame `f` the eviction loop of
`pushReadyFrame` terminates, leaving the last `min(|q|, MAX_FRAME_CACHE - 2)`
frames of `q`; after the push the ready queue is these frames followed by `f`,
of length `min(|q| + 1, MAX_FRAME_CACHE - 1)`. In every state reached from the
constructed cache the ready queue has at most `MAX_FRAME_CACHE - 1 = 2`
frames. -/
theorem evictLoop_result (q a : List FrameData) (f : FrameData) (n : Nat)
    (ops : List CacheOp) :
    (OptimizedFrameCache.evictLoop q a).1
        = q.drop (q.length - min q.length (MAX_FRAME_CACHE - 2)) ∧
      (OptimizedFrameCache.pushReadyFrame ⟨a, q, n⟩ f).ready_frames
        = q.drop (q.length - min q.length (MAX_FRAME_CACHE - 2)) ++ [f] ∧
      (OptimizedFrameCache.pushReadyFrame ⟨a, q, n⟩ f).ready_frames.length
        = min (q.length + 1) (MAX_FRAME_CACHE - 1) ∧
      (OptimizedFrameCache.new.run ops).ready_frames.length ≤ MAX_FRAME_CACHE - 1 ∧
      MAX_FRAME_CACHE - 1 = 2 := by
  have hk : q.length - min q.length (MAX_FRAME_CACHE - 2)
      = (OptimizedFrameCache.evictedFrames q).length := by
    rw [evictedFrames_length]
    simp only [MAX_FRAME_CACHE]
    omega
  refine ⟨by rw [evictLoop_eq, hk], by rw [pushReadyFrame_eq, hk], ?_, ?_, rfl⟩
  · rw [pushReadyFrame_eq]
    simp only [List.length_append, List.length_drop, List.length_singleton,
      evictedFrames_length, MAX_FRAME_CACHE]
    omega
  · exact cache_run_inv (fun c => c.ready_frames.length ≤ MAX_FRAME_CACHE - 1)
      ready_length_apply ops OptimizedFrameCache.new (by decide)

/-! ### UYVY pixel pairs -/

theorem clamp255_toNat_lt (v : Int) : (clamp255 v).toNat < 256 := by
  unfold clamp255
  split
  · decide
  · split
    · decide
    · omega

/-- The word stored for a luma byte and a chroma pair, as a sum. -/
theorem uyvyWord_eq (Y U V : Byte) :
    uyvyWord ((Y.val : Int) - 16) ((U.val : Int) - 128) ((V.val : Int) - 128)
      = 0xFF000000 + (uyvyRGB Y U V).1 * 2 ^ 16 + (uyvyRGB Y U V).2.1 * 2 ^ 8
        + (uyvyRGB Y U V).2.2 := by
  unfold uyvyWord uyvyRGB bitmapR bitmapG bitmapB
  rw [packARGB_eq (by decide) (clamp255_toNat_lt _) (clamp255_toNat_lt _)
    (clamp255_toNat_lt _)]
  rfl

/-- C23. For a UYVY frame of even width `w`, height `h`, stride `s ≥ 2 * w`
and at least `h * s` bytes of data, and for `y < h`, `k < w / 2`, with `U`,
`Y1`, `V`, `Y2` the bytes at `y * s + 4 * k`, `+ 1`, `+ 2`, `+ 3`:
`createBitmapFromVideoFrame` writes at `y * w + 2 * k` the word
`0xFF000000 | (R << 16) | (G << 8) | B` with `(R, G, B) = uyvyRGB Y1 U V` and at
`y * w + 2 * k + 1` the same with `uyvyRGB Y2 U V`; all channels are at most
255, both words have alpha 255, and the two words are equal when
`Y1 = Y2`. -/
theorem createBitmap_uyvy_pairs (w h s : Nat) (d : List Byte) (hw : w % 2 = 0)
    (hs : 2 * w ≤ s) (hlen : h * s ≤ d.length) :
    (∀ Y U V : Byte, (uyvyRGB Y U V).1 ≤ 255 ∧ (uyvyRGB Y U V).2.1 ≤ 255 ∧
        (uyvyRGB Y U V).2.2 ≤ 255) ∧
    ∃ pixels,
      createBitmapFromVideoFrame JNIEnv.android (some ⟨w, h, .UYVY, s, some d⟩)
        = .bitmap ⟨pixels, w, h⟩ ∧
      pixels.length = w * h ∧
      ∀ y k, y < h → k < w / 2 →
        y * s + 4 * k + 3 < d.length ∧
        pixels[y * w + 2 * k]? = some
          (0xFF000000
            + (uyvyRGB (d.getD (y * s + 4 * k + 1) 0) (d.getD (y * s + 4 * k) 0)
                (d.getD (y * s + 4 * k + 2) 0)).1 * 2 ^ 16
            + (uyvyRGB (d.getD (y * s + 4 * k + 1) 0) (d.getD (y * s + 4 * k) 0)
                (d.getD (y * s + 4 * k + 2) 0)).2.1 * 2 ^ 8
            + (uyvyRGB (d.getD (y * s + 4 * k + 1) 0) (d.getD (y * s + 4 * k) 0)
                (d.getD (y * s + 4 * k + 2) 0)).2.2) ∧
        pixels[y * w + 2 * k + 1]? = some
          (0xFF000000
            + (uyvyRGB (d.getD (y * s + 4 * k + 3) 0) (d.getD (y * s + 4 * k) 0)
                (d.getD (y * s + 4 * k + 2) 0)).1 * 2 ^ 16
            + (uyvyRGB (d.getD (y * s + 4 * k + 3) 0) (d.getD (y * s + 4 * k) 0)
                (d.getD (y * s + 4 * k + 2) 0)).2.1 * 2 ^ 8
            + (uyvyRGB (d.getD (y * s + 4 * k + 3) 0) (d.getD (y * s + 4 * k) 0)
                (d.getD (y * s + 4 * k + 2) 0)).2.2) ∧
        (∀ p, pixels[y * w + 2 * k]? = some p ∨ pixels[y * w + 2 * k + 1]? = some p →
          p / 2 ^ 24 = 255) ∧
        (d.getD (y * s + 4 * k + 1) 0 = d.getD (y * s + 4 * k + 3) 0 →
          pixels[y * w + 2 * k]? = pixels[y * w + 2 * k + 1]?) := by
  have hch : ∀ Y U V : Byte, (uyvyRGB Y U V).1 ≤ 255 ∧ (uyvyRGB Y U V).2.1 ≤ 255 ∧
      (uyvyRGB Y U V).2.2 ≤ 255 := by
    intro Y U V
    have h1 := clamp255_toNat_lt (((298 * ((Y.val : Int) - 16) + 409 * ((V.val : Int) - 128)
      + 128) >>> (8 : Nat)))
    have h2 := clamp255_toNat_lt (((298 * ((Y.val : Int) - 16) - 100 * ((U.val : Int) - 128)
      - 208 * ((V.val : Int) - 128) + 128) >>> (8 : Nat)))
    have h3 := clamp255_toNat_lt (((298 * ((Y.val : Int) - 16) + 516 * ((U.val : Int) - 128)
      + 128) >>> (8 : Nat)))
    simp only [uyvyRGB, bitmapR, bitmapG, bitmapB]
    omega
  refine ⟨hch, ?_⟩
  obtain ⟨out, hrun, hsize, hpix⟩ :=
    convertFrame_spec .UYVY (d := d) (w := w) (h := h) (s := s)
      (by simp only [rowBytes]; omega) hlen
  refine ⟨out, createBitmap_of_convert rfl hrun, hsize, ?_⟩
  intro y k hy hk
  have hx0 : 2 * k < w := by omega
  have hx1 : 2 * k + 1 < w := by omega
  have hin : y * s + 4 * k + 3 < d.length := by
    have := row_offset_lt (k := 4 * k + 3) hy (by omega) hlen
    omega
  have hp0 : out[y * w + 2 * k]? = some
      (0xFF000000
        + (uyvyRGB (d.getD (y * s + 4 * k + 1) 0) (d.getD (y * s + 4 * k) 0)
            (d.getD (y * s + 4 * k + 2) 0)).1 * 2 ^ 16
        + (uyvyRGB (d.getD (y * s + 4 * k + 1) 0) (d.getD (y * s + 4 * k) 0)
            (d.getD (y * s + 4 * k + 2) 0)).2.1 * 2 ^ 8
        + (uyvyRGB (d.getD (y * s + 4 * k + 1) 0) (d.getD (y * s + 4 * k) 0)
            (d.getD (y * s + 4 * k + 2) 0)).2.2) := by
    rw [hpix y (2 * k) hy hx0, ← uyvyWord_eq]
    simp only [pixelWord, rowOf]
    rw [getD_index_congr d (by omega : y * s + (2 * (2 * k) + 1) = y * s + 4 * k + 1),
      getD_index_congr d (by omega : y * s + 4 * (2 * k / 2) = y * s + 4 * k),
      getD_index_congr d (by omega : y * s + (4 * (2 * k / 2) + 2) = y * s + 4 * k + 2)]
  have hp1 : out[y * w + 2 * k + 1]? = some
      (0xFF000000
        + (uyvyRGB (d.getD (y * s + 4 * k + 3) 0) (d.getD (y * s + 4 * k) 0)
            (d.getD (y * s + 4 * k + 2) 0)).1 * 2 ^ 16
        + (uyvyRGB (d.getD (y * s + 4 * k + 3) 0) (d.getD (y * s + 4 * k) 0)
            (d.getD (y * s + 4 * k + 2) 0)).2.1 * 2 ^ 8
        + (uyvyRGB (d.getD (y * s + 4 * k + 3) 0) (d.getD (y * s + 4 * k) 0)
            (d.getD (y * s + 4 * k + 2) 0)).2.2) := by
    rw [show y * w + 2 * k + 1 = y * w + (2 * k + 1) by omega,
      hpix y (2 * k + 1) hy hx1, ← uyvyWord_eq]
    simp only [pixelWord, rowOf]
    rw [getD_index_congr d (by omega : y * s + (2 * (2 * k + 1) + 1) = y * s + 4 * k + 3),
      getD_index_congr d (by omega : y * s + 4 * ((2 * k + 1) / 2) = y * s + 4 * k),
      getD_index_congr d (by omega :
        y * s + (4 * ((2 * k + 1) / 2) + 2) = y * s + 4 * k + 2)]
  refine ⟨hin, hp0, hp1, ?_, ?_⟩
  · intro p hp
    have c0 := hch (d.getD (y * s + 4 * k + 1) 0) (d.getD (y * s + 4 * k) 0)
      (d.getD (y * s + 4 * k + 2) 0)
    have c1 := hch (d.getD (y * s + 4 * k + 3) 0) (d.getD (y * s + 4 * k) 0)
      (d.getD (y * s + 4 * k + 2) 0)
    rcases hp with hp | hp
    · rw [hp0] at hp
      cases hp
      omega
    · rw [hp1] at hp
      cases hp
      omega
  · intro hY
    rw [hp0, hp1, hY]

theorem createBitmap_uyvy_pairs_witness :
    2 % 2 = 0 ∧ 2 * 2 ≤ 4 ∧
      ∃ pixels,
        createBitmapFromVideoFrame JNIEnv.android
          (some ⟨2, 1, .UYVY, 4, some [128, 16, 128, 235]⟩) = .bitmap ⟨pixels, 2, 1⟩ ∧
        pixels.length = 2 * 1 :=
  ⟨by decide, by decide,
    (createBitmap_uyvy_pairs 2 1 4 [128, 16, 128, 235] (by decide) (by decide)
      (by decide)).2.imp (fun _ h => ⟨h.1, h.2.1⟩)⟩

/-! ### The frame getters of `NDIRenderService` -/

/-- C24 (defect in the code). With the frame `F = sampleFrame 11` ready (width
1, height 1, FourCC BGRA, 4 bytes), `nativeCaptureFrame` returns 1 and keeps
`F` in its own `current_frame`; the getters read their own variables, which
no function ever sets: `nativeGetFrameWidth` and `nativeGetFrameHeight` return
0, `nativeGetFrameFourCC` returns 0, `nativeGetFrameData` returns null and
does not recycle `F`. From any state, no call of `nativeCaptureFrame` changes
a variable that a getter reads. -/
theorem render_getters_after_capture :
    (sampleRenderState.nativeCaptureFrame 33).1 = 1 ∧
      (sampleRenderState.nativeCaptureFrame 33).2.1 = some (1, 1) ∧
      (sampleRenderState.nativeCaptureFrame 33).2.2.captureFrame_current_frame
        = some (sampleFrame 11) ∧
      (sampleFrame 11).width = 1 ∧
      (sampleRenderState.nativeCaptureFrame 33).2.2.nativeGetFrameWidth = 0 ∧
      (sampleRenderState.nativeCaptureFrame 33).2.2.nativeGetFrameHeight = 0 ∧
      (sampleRenderState.nativeCaptureFrame 33).2.2.nativeGetFrameFourCC = none ∧
      (sampleRenderState.nativeCaptureFrame 33).2.2.nativeGetFrameData
        = some (none, (sampleRenderState.nativeCaptureFrame 33).2.2) ∧
      (sampleRenderState.nativeCaptureFrame 33).2.2.frame_cache.available_frames
        = OptimizedFrameCache.new.available_frames ∧
      ∀ (s : RenderState) (t : Int),
        (s.nativeCaptureFrame t).2.2.getFrameWidth_current_frame
          = s.getFrameWidth_current_frame ∧
        (s.nativeCaptureFrame t).2.2.getFrameHeight_current_frame
          = s.getFrameHeight_current_frame ∧
        (s.nativeCaptureFrame t).2.2.getFrameFourCC_current_frame
          = s.getFrameFourCC_current_frame ∧
        (s.nativeCaptureFrame t).2.2.getFrameData_current_frame
          = s.getFrameData_current_frame := by
  refine ⟨by decide, by decide, by decide, rfl, by decide, by decide, by decide, by decide,
    by decide, ?_⟩
  rintro ⟨r, cr, ⟨a, q, n⟩, c0, c1, c2, c3, c4⟩ t
  cases r <;> cases cr <;> cases q <;>
    simp [RenderState.nativeCaptureFrame, popReadyFrame_nil, popReadyFrame_cons]

/-! ### Bounds of the UYVY reads -/

/-- C27 (defect in the code). On a 1x1 UYVY frame with stride 2 and a buffer of
exactly 2 bytes, and on a 3x2 UYVY frame with stride 6 and a buffer of exactly
12 bytes, the UYVY case reads outside the buffer: for the last pixel of an
odd-width row it reads the V byte at row offset `2 * w`, which in the last row
is the index `h * s`. The same 3x2 data read as an even-width frame of width 2
is converted without a fault. -/
theorem createBitmap_uyvy_odd_width_overread :
    sampleTightOddUYVY.p_data.map List.length
        = some (sampleTightOddUYVY.yres * sampleTightOddUYVY.line_stride_in_bytes) ∧
      2 * sampleTightOddUYVY.xres ≤ sampleTightOddUYVY.line_stride_in_bytes ∧
      createBitmapFromVideoFrame JNIEnv.android (some sampleTightOddUYVY) = .fault ∧
      uyvyBody [128, 128] 1 2 0 0 [0] = none ∧
      ([128, 128] : List Byte)[0 * 2 + (0 * 2 + 2)]? = none ∧
      sampleTightOddUYVY3.p_data.map List.length
        = some (sampleTightOddUYVY3.yres * sampleTightOddUYVY3.line_stride_in_bytes) ∧
      2 * sampleTightOddUYVY3.xres ≤ sampleTightOddUYVY3.line_stride_in_bytes ∧
      createBitmapFromVideoFrame JNIEnv.android (some sampleTightOddUYVY3) = .fault ∧
      createBitmapFromVideoFrame JNIEnv.android
          (some { sampleTightOddUYVY3 with xres := 2 })
        = .bitmap ⟨[0xFF000000, 0xFFFFFFFF, 0xFF000000, 0xFFFFFFFF], 2, 2⟩ := by
  decide

/-! ### The global frame state -/

/-- C28 (defect in the code). After `MainActivity` has connected and received
a video frame of width 2, `NDIDiscoveryService.nativeDestroyNDI` clears the
receiver and leaves `has_video_frame` set: with no receiver connected
`nativeHasFrame` returns true and `nativeGetFrameWidth`, `nativeGetFrameHeight`
and `nativeGetFrameStride` return 2, 2 and 8 instead of 0. The disconnect and
the connect of `NDIRenderService` leave the flag set in the same way, while
`MainActivity.nativeDisconnect` and `nativeShutdownNDI` clear it. -/
theorem has_frame_without_receiver :
    (GlobalState.init.run sampleCalls).ndi_recv = false ∧
      (GlobalState.init.run sampleCalls).has_video_frame = true ∧
      (GlobalState.init.run sampleCalls).nativeHasFrame = true ∧
      (GlobalState.init.run sampleCalls).nativeGetFrameWidth = 2 ∧
      (GlobalState.init.run sampleCalls).nativeGetFrameHeight = 2 ∧
      (GlobalState.init.run sampleCalls).nativeGetFrameStride = 8 ∧
      (GlobalState.init.run sampleCalls).nativeGetFrameFourCC = some .BGRA ∧
      (∀ s : GlobalState,
        (s.step .NDIRenderService_nativeDisconnect).has_video_frame = s.has_video_frame ∧
        (s.step .NDIRenderService_nativeDisconnect).ndi_recv = false ∧
        (s.step (.NDIRenderService_nativeConnectToSource false false)).has_video_frame
          = s.has_video_frame ∧
        (s.step (.NDIRenderService_nativeConnectToSource false false)).ndi_recv = false ∧
        (s.step .NDIDiscoveryService_nativeDestroyNDI).has_video_frame
          = s.has_video_frame ∧
        (s.step .NDIDiscoveryService_nativeDestroyNDI).ndi_recv = false) ∧
      ∀ s : GlobalState,
        (s.step .MainActivityOptimized_nativeShutdownNDI).has_video_frame = false ∧
        (s.step .MainActivity_nativeDisconnect).ndi_recv = false ∧
        (s.step .MainActivity_nativeDisconnect).has_video_frame
          = (!s.ndi_recv && s.has_video_frame) := by
  refine ⟨by decide, by decide, by decide, by decide, by decide, by decide, by decide, ?_, ?_⟩
  · intro s
    exact ⟨rfl, rfl, rfl, rfl, rfl, rfl⟩
  · rintro ⟨r, hv, f⟩
    cases r <;> simp [GlobalState.step]

/-! ### The bit-mask clamp -/

theorem mask_testBit (i : Nat) :
    Nat.testBit 0xFFFFFF00 i = (decide (8 ≤ i) && decide (i < 32)) := by
  by_cases h : i < 32
  · interval_cases i <;> rfl
  · have h2 : (0xFFFFFF00 : Nat) < 2 ^ i :=
      lt_of_lt_of_le (by decide : (0xFFFFFF00 : Nat) < 2 ^ 32)
        (Nat.pow_le_pow_right (by decide) (by omega))
    rw [Nat.testBit_lt_two_pow h2]
    simp [h]

/-- A 32-bit pattern has none of the bits 8 to 31 set exactly when it is below
256. -/
theorem mask_zero_iff (u : Nat) (hu : u < 2 ^ 32) : u &&& 0xFFFFFF00 = 0 ↔ u < 256 := by
  constructor
  · intro h
    apply @Nat.lt_pow_two_of_testBit 8
    intro i hi
    by_cases h32 : i < 32
    · have := congrArg (fun v => Nat.testBit v i) h
      simp only [Nat.testBit_and, mask_testBit, Nat.zero_testBit] at this
      simpa [hi, h32] using this
    · exact Nat.testBit_lt_two_pow
        (lt_of_lt_of_le hu (Nat.pow_le_pow_right (by decide) (by omega)))
  · intro h
    apply Nat.eq_of_testBit_eq
    intro i
    rw [Nat.testBit_and, mask_testBit, Nat.zero_testBit]
    by_cases h8 : 8 ≤ i
    · rw [Nat.testBit_lt_two_pow
        (lt_of_lt_of_le h (Nat.pow_le_pow_right (by decide) h8 : 2 ^ 8 ≤ 2 ^ i))]
      rfl
    · simp [h8]

/-- C30. For every signed 32-bit integer `x`, the bit-mask clamp
`(x & 0xFFFFFF00) == 0 ? x : (x < 0 ? 0 : 255)` of `ndi_wrapper_optimized`'s
`nativeConvertUYVYToARGB` equals `max(0, min(255, x))`, and equals the
comparison clamp `x < 0 ? 0 : (x > 255 ? 255 : x)` of the other UYVY
converters. -/
theorem maskClamp_eq (x : Int) (hlo : -2 ^ 31 ≤ x) (hhi : x < 2 ^ 31) :
    Optimized.maskClamp x = clampRef x ∧ Optimized.maskClamp x = clamp255 x := by
  have hu : (x % 2 ^ 32).toNat < 2 ^ 32 := by omega
  have hiff := mask_zero_iff _ hu
  unfold Optimized.maskClamp clampRef clamp255
  rw [max_def, min_def]
  by_cases hm : (x % 2 ^ 32).toNat &&& 0xFFFFFF00 = 0
  · have h1 := hiff.mp hm
    rw [if_pos hm]
    constructor <;> split_ifs <;> omega
  · have h1 := mt hiff.mpr hm
    rw [if_neg hm]
    constructor <;> split_ifs <;> omega

theorem maskClamp_eq_witness :
    (-2 ^ 31 : Int) ≤ -7 ∧ (-7 : Int) < 2 ^ 31 ∧
      Optimized.maskClamp (-7) = clampRef (-7) ∧ Optimized.maskClamp (-7) = 0 :=
  ⟨by decide, by decide, (maskClamp_eq (-7) (by decide) (by decide)).1, by decide⟩

/-! ### The scalar BGRA converters -/

/-- A loop that stores `val (lo + j)` at `lo + j` for `j < cnt` extends the
filled front of the array from `lo` to `lo + cnt` and leaves the rest. -/
theorem segment_fill (body : Nat → List Nat → Option (List Nat)) (val : Nat → Nat)
    (out0 : List Nat) (lo cnt : Nat) (o : List Nat) (hlen : o.length = out0.length)
    (hhi : lo + cnt ≤ out0.length)
    (hbody : ∀ j o', j < cnt → body j o' = storeWord o' (lo + j) (val (lo + j)))
    (hpre : ∀ idx, o[idx]? = if idx < lo then some (val idx) else out0[idx]?) :
    ∃ o', forRange cnt body o = some o' ∧ o'.length = out0.length ∧
      ∀ idx, o'[idx]? = if idx < lo + cnt then some (val idx) else out0[idx]? := by
  refine forRange_inv
    (fun j o' => o'.length = out0.length ∧
      ∀ idx, o'[idx]? = if idx < lo + j then some (val idx) else out0[idx]?)
    cnt body o ⟨hlen, by simpa using hpre⟩ ?_
  rintro j o' hj ⟨hl, hp⟩
  have hin : lo + j < o'.length := by omega
  refine ⟨o'.set (lo + j) (val (lo + j)), by rw [hbody j o' hj, storeWord_eq _ hin], ?_, ?_⟩
  · simp [hl]
  · intro idx
    by_cases he : idx = lo + j
    · subst he
      rw [List.getElem?_set_self hin, if_pos (by omega)]
    · rw [List.getElem?_set_ne (fun h => he h.symm), hp idx]
      by_cases hlt : idx < lo + j
      · rw [if_pos hlt, if_pos (by omega)]
      · rw [if_neg hlt, if_neg (by omega)]

theorem scalarBody_eq {bgra : List Byte} {i : Nat} (o : List Nat)
    (hin : i * 4 + 3 < bgra.length) :
    PixelConverter.scalarBody bgra i o = storeWord o i (packedWord bgra i) := by
  unfold PixelConverter.scalarBody packedWord
  rw [← packARGB_eq (Fin.isLt _) (Fin.isLt _) (Fin.isLt _) (Fin.isLt _)]
  simp only []
  rw [getElem?_eq_getD (by omega : i * 4 < bgra.length),
    getElem?_eq_getD (by omega : i * 4 + 1 < bgra.length),
    getElem?_eq_getD (by omega : i * 4 + 2 < bgra.length),
    getElem?_eq_getD hin]
  rfl

theorem optimizedBody_eq {bgra : List Byte} {i : Nat} (o : List Nat)
    (hin : i * 4 + 3 < bgra.length) :
    Optimized.bgraBody bgra i o = storeWord o i (packedWord bgra i) := by
  unfold Optimized.bgraBody packedWord
  rw [← packARGB_eq (Fin.isLt _) (Fin.isLt _) (Fin.isLt _) (Fin.isLt _)]
  simp only []
  rw [getElem?_eq_getD (by omega : i * 4 < bgra.length),
    getElem?_eq_getD (by omega : i * 4 + 1 < bgra.length),
    getElem?_eq_getD (by omega : i * 4 + 2 < bgra.length),
    getElem?_eq_getD hin]
  rfl

/-- The fallback loop of `pixel_converter` fills the first `n` words. -/
theorem fallback_fill {bgra : List Byte} {argb : List Nat} {w h : Nat}
    (hb : 4 * (w * h) ≤ bgra.length) (ha : w * h ≤ argb.length) :
    ∃ res, PixelConverter.nativeConvertBGRAToARGB_fallback bgra argb w h = some res ∧
      res.length = argb.length ∧
      ∀ idx, res[idx]? = if idx < w * h then some (packedWord bgra idx) else argb[idx]? := by
  have := segment_fill (PixelConverter.scalarBody bgra) (packedWord bgra) argb 0 (w * h) argb
    rfl (by omega) (fun j o' hj => by rw [Nat.zero_add]; exact scalarBody_eq o' (by omega))
    (fun idx => by simp)
  simpa [PixelConverter.nativeConvertBGRAToARGB_fallback] using this

/-- The blocked loop of `ndi_wrapper_optimized` fills the first `n` words. -/
theorem blocked_fill {bgra : List Byte} {argb : List Nat} {w h : Nat}
    (hb : 4 * (w * h) ≤ bgra.length) (ha : w * h ≤ argb.length) :
    ∃ res, Optimized.nativeConvertBGRAToARGB bgra argb w h = some res ∧
      res.length = argb.length ∧
      ∀ idx, res[idx]? = if idx < w * h then some (packedWord bgra idx) else argb[idx]? := by
  generalize hn : w * h = n at hb ha
  have key := forRange_inv
    (fun k o => o.length = argb.length ∧
      ∀ idx, o[idx]? = if idx < min (4 * k) n then some (packedWord bgra idx) else argb[idx]?)
    ((n + 3) / 4)
    (fun k => forRange (min 4 (n - 4 * k)) (fun j => Optimized.bgraBody bgra (4 * k + j)))
    argb ⟨rfl, fun idx => by simp⟩
    (by
      rintro k o hk ⟨hl, hp⟩
      have hk4 : 4 * k < n := by omega
      have e0 : min (4 * k) n = 4 * k := by omega
      have e1 : 4 * k + min 4 (n - 4 * k) = min (4 * (k + 1)) n := by omega
      rw [e0] at hp
      obtain ⟨o', h1, h2, h3⟩ := segment_fill
        (fun j => Optimized.bgraBody bgra (4 * k + j)) (packedWord bgra) argb (4 * k)
        (min 4 (n - 4 * k)) o hl (by omega)
        (fun j o' hj => optimizedBody_eq o' (by omega)) hp
      rw [e1] at h3
      exact ⟨o', h1, h2, h3⟩)
  obtain ⟨res, h1, h2, h3⟩ := key
  have e2 : min (4 * ((n + 3) / 4)) n = n := by omega
  rw [e2] at h3
  refine ⟨res, ?_, h2, h3⟩
  simp only [Optimized.nativeConvertBGRAToARGB, hn]
  exact h1

/-- C29. For a tightly packed BGRA buffer of `n = width * height` pixels the
three scalar converters produce the same `n` words: the fallback loop of
`pixel_converter`'s `nativeConvertBGRAToARGB`, the blocked loop of
`ndi_wrapper_optimized`'s `nativeConvertBGRAToARGB`, and the BGRA case of
`createBitmapFromVideoFrame` with stride `4 * width`. Word `i < n` is
`(A << 24) | (R << 16) | (G << 8) | B` of pixel `i`, and the words from `n` on
are left as they were. The loop indices of each converter reach every index
below `n` exactly once and no index from `n` on. -/
theorem bgra_converters_agree (w h : Nat) (bgra : List Byte) (argb : List Nat)
    (hb : 4 * (w * h) ≤ bgra.length) (ha : w * h ≤ argb.length) :
    (∃ res,
      PixelConverter.nativeConvertBGRAToARGB_fallback bgra argb w h = some res ∧
      Optimized.nativeConvertBGRAToARGB bgra argb w h = some res ∧
      createBitmapFromVideoFrame JNIEnv.android (some ⟨w, h, .BGRA, 4 * w, some bgra⟩)
        = .bitmap ⟨res.take (w * h), w, h⟩ ∧
      res.length = argb.length ∧
      (∀ i, i < w * h → res[i]? = some (packedWord bgra i)) ∧
      (∀ i, w * h ≤ i → res[i]? = argb[i]?)) ∧
    (∀ i, i < w * h →
      ∃! kj : Nat × Nat, kj.1 < (w * h + 3) / 4 ∧ kj.2 < min 4 (w * h - 4 * kj.1) ∧
        4 * kj.1 + kj.2 = i) ∧
    (∀ k j, k < (w * h + 3) / 4 → j < min 4 (w * h - 4 * k) → 4 * k + j < w * h) ∧
    (∀ i, i < w * h →
      ∃! yx : Nat × Nat, yx.1 < h ∧ yx.2 < w ∧ yx.1 * w + yx.2 = i) ∧
    (∀ y x, y < h → x < w → y * w + x < w * h) := by
  refine ⟨?_, ?_, ?_, ?_, ?_⟩
  · obtain ⟨r1, hf, hl1, hp1⟩ := fallback_fill hb ha
    obtain ⟨r2, hbk, hl2, hp2⟩ := blocked_fill hb ha
    have h12 : r2 = r1 := List.ext_getElem? (fun i => by rw [hp1, hp2])
    subst h12
    obtain ⟨out, hrun, hsize, hpix⟩ := bgraLoops_spec true (d := bgra) (w := w) (h := h)
      (s := 4 * w) (le_refl _) (by
        have e : h * (4 * w) = 4 * (w * h) := by ring
        omega)
    have hout : out = r2.take (w * h) := by
      refine pixels_ext hsize (by rw [List.length_take]; omega) ?_
      intro y x hy hx
      have hlt : y * w + x < w * h := by
        have := row_offset_lt (k := x) hy hx (le_refl (h * w))
        rw [Nat.mul_comm w h]
        exact this
      have e0 : y * (4 * w) + (x * 4 + 0) = (y * w + x) * 4 := by ring
      have e1 : y * (4 * w) + (x * 4 + 1) = (y * w + x) * 4 + 1 := by ring
      have e2 : y * (4 * w) + (x * 4 + 2) = (y * w + x) * 4 + 2 := by ring
      have e3 : y * (4 * w) + (x * 4 + 3) = (y * w + x) * 4 + 3 := by ring
      rw [hpix y x hy hx, List.getElem?_take_of_lt hlt, hp1, if_pos hlt, e0, e1, e2, e3,
        packedWord, ← packARGB_eq (Fin.isLt _) (Fin.isLt _) (Fin.isLt _) (Fin.isLt _)]
      rfl
    refine ⟨r2, hf, hbk, ?_, hl1, ?_, ?_⟩
    · rw [← hout]
      exact createBitmap_of_convert rfl hrun
    · intro i hi
      rw [hp1, if_pos hi]
    · intro i hi
      rw [hp1, if_neg (by omega)]
  · intro i hi
    refine ⟨(i / 4, i % 4), ⟨by simp only; omega, by simp only; omega, by simp only; omega⟩, ?_⟩
    rintro ⟨k, j⟩ ⟨h1, h2, h3⟩
    simp only at h1 h2 h3
    simp only [Prod.mk.injEq]
    omega
  · intro k j hk hj
    omega
  · intro i hi
    have hw : 0 < w := by
      rcases Nat.eq_zero_or_pos w with h0 | h0
      · subst h0; simp at hi
      · exact h0
    refine ⟨(i / w, i % w), ⟨(Nat.div_lt_iff_lt_mul hw).mpr (by rw [Nat.mul_comm]; exact hi),
      Nat.mod_lt _ hw, Nat.div_add_mod' i w⟩, ?_⟩
    rintro ⟨y, x⟩ ⟨_, h2, h3⟩
    simp only at h2 h3
    simp only [Prod.mk.injEq]
    subst h3
    constructor
    · rw [Nat.add_comm, Nat.add_mul_div_right _ _ hw, Nat.div_eq_of_lt h2, Nat.zero_add]
    · rw [Nat.add_comm, Nat.add_mul_mod_self_right, Nat.mod_eq_of_lt h2]
  · intro y x hy hx
    have := row_offset_lt (k := x) hy hx (le_refl (h * w))
    rw [Nat.mul_comm w h]
    exact this

theorem bgra_converters_agree_witness :
    4 * (2 * 2) ≤ sampleBGRABytes.length ∧ 2 * 2 ≤ [(7 : Nat), 7, 7, 7, 7].length ∧
      ∃ res,
        PixelConverter.nativeConvertBGRAToARGB_fallback sampleBGRABytes [7, 7, 7, 7, 7] 2 2
          = some res ∧
        Optimized.nativeConvertBGRAToARGB sampleBGRABytes [7, 7, 7, 7, 7] 2 2 = some res ∧
        createBitmapFromVideoFrame JNIEnv.android
          (some ⟨2, 2, .BGRA, 4 * 2, some sampleBGRABytes⟩) = .bitmap ⟨res.take (2 * 2), 2, 2⟩ :=
  ⟨by decide, by decide,
    (bgra_converters_agree 2 2 sampleBGRABytes [7, 7, 7, 7, 7] (by decide) (by decide)).1.imp
      (fun _ h => ⟨h.1, h.2.1, h.2.2.1⟩)⟩

end NDIPlayer
